import Mathlib

/-!
Shallow embedding of the caption-alignment and timing-synthesis engine of
src/server/services/srt-parser.js.  JS numbers are modelled as rationals
(ℚ); JS NaN is modelled as Option.none where it can arise; JS strings are
modelled as Lean strings, with the character-level work done on List Char.
JS built-ins (toLowerCase, split, Set, parseInt, parseFloat, Math.round)
are modelled by explicit Lean functions defined below; toLowerCase is
modelled character-wise on the ASCII range.
-/

/-- Computable minimum on ℚ (kernel-reducible form of min). -/
def qmin (a b : ℚ) : ℚ := if a ≤ b then a else b

/-- Computable maximum on ℚ (kernel-reducible form of max). -/
def qmax (a b : ℚ) : ℚ := if a ≤ b then b else a

/-- ASCII word characters, the JS regex class backslash-w: A-Z a-z 0-9 and underscore. -/
def isWordChar (c : Char) : Bool :=
  (97 ≤ c.toNat && c.toNat ≤ 122) || (65 ≤ c.toNat && c.toNat ≤ 90) ||
  (48 ≤ c.toNat && c.toNat ≤ 57) || c.toNat == 95

/-- Whitespace characters matched by the JS regex class backslash-s. -/
def isJsSpace (c : Char) : Bool :=
  (9 ≤ c.toNat && c.toNat ≤ 13) || c.toNat == 32 || c.toNat == 160 ||
  c.toNat == 5760 || (8192 ≤ c.toNat && c.toNat ≤ 8202) || c.toNat == 8232 ||
  c.toNat == 8233 || c.toNat == 8239 || c.toNat == 8287 || c.toNat == 12288 ||
  c.toNat == 65279

/-- Character-wise model of JS String.toLowerCase restricted to ASCII letters. -/
def charLower (c : Char) : Char :=
  if 65 ≤ c.toNat && c.toNat ≤ 90 then Char.ofNat (c.toNat + 32) else c

/-- One character of the replace step of normalize: non-word, non-space
characters become a space (the JS replace of the class [^word space] by a space). -/
def replaceChar (c : Char) : Char :=
  if isWordChar c || isJsSpace c then c else ' '

/-- Worker for collapseWs; the flag records whether we are inside a whitespace run. -/
def collapseAux : Bool → List Char → List Char
  | _, [] => []
  | inRun, c :: r =>
    if isJsSpace c then
      if inRun then collapseAux true r else ' ' :: collapseAux true r
    else c :: collapseAux false r

/-- Model of the JS replace of one-or-more whitespace by a single space. -/
def collapseWs (l : List Char) : List Char := collapseAux false l

/-- Model of JS String.trim: drop whitespace from both ends. -/
def trimL (l : List Char) : List Char :=
  ((l.dropWhile isJsSpace).reverse.dropWhile isJsSpace).reverse

/-- The per-character action of the first two normalize steps:
lowercase, then replace non-word non-space characters by a space. -/
def mChar (c : Char) : Char := replaceChar (charLower c)

/-- Character-list form of normalize (srt-parser.js lines 169-175):
lowercase, replace non-word characters by spaces, collapse whitespace
runs, trim. -/
def normalizeL (l : List Char) : List Char :=
  trimL (collapseWs (l.map mChar))

/-- normalize from srt-parser.js lines 169-175 (a null/undefined argument
behaves as the empty string, which normalizes to itself). -/
def normalizeText (s : String) : String := ⟨normalizeL s.data⟩

/-- Does needle begin hay?  Worker for occursIn. -/
def leadsWith : List Char → List Char → Bool
  | [], _ => true
  | _ :: _, [] => false
  | a :: s, b :: t => a == b && leadsWith s t

/-- Model of JS String.includes: does needle occur contiguously in hay? -/
def occursIn (needle : List Char) : List Char → Bool
  | [] => leadsWith needle []
  | b :: t => leadsWith needle (b :: t) || occursIn needle t

/-- Model of JS split on a single space character. -/
def splitBySpace : List Char → List (List Char)
  | [] => [[]]
  | c :: r =>
    if c = ' ' then [] :: splitBySpace r
    else
      match splitBySpace r with
      | [] => [[c]]
      | w :: ws => (c :: w) :: ws

/-- The word list of a string: split on spaces, drop empty fragments
(the JS split followed by filter(Boolean)). -/
def jsWords (l : List Char) : List (List Char) :=
  (splitBySpace l).filter (fun w => w ≠ [])

/-- All overlapping two-character windows of a string, in order. -/
def bigramList : List Char → List (List Char)
  | a :: b :: r => [a, b] :: bigramList (b :: r)
  | _ => []

/-- toBigrams from srt-parser.js lines 215-221: the set of two-character
substrings, modelled as a duplicate-free list. -/
def toBigrams (l : List Char) : List (List Char) := (bigramList l).dedup

/-- The word set of a string: the unique words, modelled as a
duplicate-free list (the JS new Set(words)). -/
def wordSet (l : List Char) : List (List Char) := (jsWords l).dedup

/-- How many words of the word set of a also lie in the word set of b
(the JS overlap loop of similarity). -/
def overlapCount (a b : List Char) : ℕ :=
  ((wordSet a).filter (fun w => decide (w ∈ wordSet b))).length

/-- How many bigrams of a also lie in the bigram set of b
(the JS bigramOverlap loop of similarity). -/
def bigramOverlapCount (a b : List Char) : ℕ :=
  ((toBigrams a).filter (fun g => decide (g ∈ toBigrams b))).length

/-- similarity from srt-parser.js lines 181-213, on character lists.
Word-overlap Jaccard-like score, substring containment bonus of 0.3,
bigram overlap score; result is min 1 (max jaccard bigram + bonus). -/
def similarityL (a b : List Char) : ℚ :=
  if a = [] ∨ b = [] then 0
  else if jsWords a = [] ∨ jsWords b = [] then 0
  else
    let jaccard : ℚ :=
      (overlapCount a b : ℚ) / ((max (wordSet a).length (wordSet b).length : ℕ) : ℚ)
    let substringBonus : ℚ := if occursIn b a || occursIn a b then 3/10 else 0
    let bigramScore : ℚ :=
      if 0 < (toBigrams a).length then
        (bigramOverlapCount a b : ℚ) /
          ((max (toBigrams a).length (toBigrams b).length : ℕ) : ℚ)
      else 0
    qmin 1 (qmax jaccard bigramScore + substringBonus)

/-- similarity from srt-parser.js lines 181-213 on strings. -/
def similarity (a b : String) : ℚ := similarityL a.data b.data

/-- Model of JS Math.round: round to the nearest integer, half toward
positive infinity. -/
def jsRound (x : ℚ) : ℤ := ⌊x + 1/2⌋

/-- Rounding to millisecond precision, the map at the end of
interpolateMissing: Math.round(t*1000)/1000. -/
def round3 (x : ℚ) : ℚ := (jsRound (x * 1000) : ℚ) / 1000


/-- One subtitle cue, the element shape produced by parseSrt
(srt-parser.js lines 13-18). -/
structure Cue where
  index : Nat
  startTime : ℚ
  endTime : ℚ
  text : String
deriving DecidableEq

instance : Inhabited Cue := ⟨⟨0, 0, 0, ""⟩⟩

/-- One per-beat record pushed onto mapping by mapSrtToBeatsIntelligent
(srt-parser.js lines 83, 89, 135-143, 145).  A JS field that is absent
or null is modelled as none. -/
structure BeatMatchEntry where
  beatIdx : Nat
  cueIdx : Option Nat
  cueId : Option Nat
  score : ℤ
  beatText : String
  cueText : Option String
  time : Option ℚ
  skipped : Option String
deriving DecidableEq

instance : Inhabited BeatMatchEntry :=
  ⟨⟨0, none, none, 0, "", none, none, none⟩⟩

/-- The unmatched mapping entry (srt-parser.js lines 83, 89, 145). -/
def mkUnmatched (i : Nat) (bt : String) (sk : Option String) : BeatMatchEntry :=
  { beatIdx := i, cueIdx := none, cueId := none, score := 0, beatText := bt,
    cueText := none, time := none, skipped := sk }

/-- Similarity against one candidate text with the literal-containment
floor: if the beat text occurs inside the candidate text and has length
at least 3, the score is floored at 0.25 (srt-parser.js lines 101-107,
and the same pattern for the combined windows). -/
def simFloor (bt t : List Char) : ℚ :=
  let s := similarityL bt t
  if occursIn bt t && decide (3 ≤ bt.length) then qmax s (1/4) else s

/-- The score of beat text bt against the candidate starting at cue c:
the cue alone, the cue joined with its next neighbor, and the cue joined
with its next two neighbors, each with the containment floor; the best of
the three (srt-parser.js lines 100-125). -/
def candScore (cueTexts : List (List Char)) (bt : List Char) (c : ℕ) : ℚ :=
  let n := cueTexts.length
  let t1 := cueTexts.getD c []
  let s1 := simFloor bt t1
  let s2 :=
    if c + 1 < n then qmax s1 (simFloor bt (t1 ++ ' ' :: cueTexts.getD (c + 1) []))
    else s1
  if c + 2 < n then
    qmax s2 (simFloor bt (t1 ++ ' ' :: cueTexts.getD (c + 1) [] ++ ' ' :: cueTexts.getD (c + 2) []))
  else s2

/-- The candidate search loop over cueIdx in [searchStart, cues.length):
keep the first index whose score strictly exceeds the best so far,
starting from bestIdx = -1 (none) and bestScore = 0
(srt-parser.js lines 96-131). -/
def bestCandidate (cueTexts : List (List Char)) (bt : List Char) (ss : ℕ) :
    Option ℕ × ℚ :=
  (List.range' ss (cueTexts.length - ss)).foldl
    (fun acc c =>
      let s := candScore cueTexts bt c
      if acc.2 < s then (some c, s) else acc)
    (none, 0)

/-- The adaptive acceptance threshold: 0.08 for label beats, 0.15
otherwise (srt-parser.js line 94). -/
def beatThreshold (bty : Option String) : ℚ :=
  if bty = some "label" then 8/100 else 15/100

/-- The forward-only matching loop of mapSrtToBeatsIntelligent
(srt-parser.js lines 75-147): ss is searchStart, i the beat index;
silent and data beats are skipped, empty normalized beat text is
unmatched, and an accepted match advances searchStart to one past the
matched cue. -/
def alignFrom (cues : List Cue) (cueTexts : List (List Char))
    (beatTypes : Option (List String)) : ℕ → ℕ → List String → List BeatMatchEntry
  | _, _, [] => []
  | ss, i, bt :: rest =>
    let bty := beatTypes.bind (fun l => l.get? i)
    if bty = some "silent" ∨ bty = some "data" then
      mkUnmatched i bt bty :: alignFrom cues cueTexts beatTypes ss (i + 1) rest
    else
      let nb := normalizeL bt.data
      if nb = [] then
        mkUnmatched i bt none :: alignFrom cues cueTexts beatTypes ss (i + 1) rest
      else
        let best := bestCandidate cueTexts nb ss
        match best.1 with
        | some b =>
          if beatThreshold bty ≤ best.2 then
            { beatIdx := i, cueIdx := some b,
              cueId := some ((cues.getD b default).index),
              score := jsRound (best.2 * 100), beatText := bt,
              cueText := some ((cues.getD b default).text),
              time := some ((cues.getD b default).startTime), skipped := none }
              :: alignFrom cues cueTexts beatTypes (b + 1) (i + 1) rest
          else
            mkUnmatched i bt none :: alignFrom cues cueTexts beatTypes ss (i + 1) rest
        | none =>
          mkUnmatched i bt none :: alignFrom cues cueTexts beatTypes ss (i + 1) rest

/-- The initial times array of interpolateMissing (srt-parser.js lines
233-240): length of the mapping, null everywhere, then each matched
entry writes its time at its beatIdx. -/
def initialTimes (mapping : List BeatMatchEntry) : List (Option ℚ) :=
  mapping.foldl
    (fun ts m => if m.cueIdx.isSome then ts.set m.beatIdx m.time else ts)
    (List.replicate mapping.length none)

/-- floorTime of interpolateMissing (srt-parser.js line 243). -/
def floorTimeOf (cues : List Cue) (segStart : Option ℚ) : ℚ :=
  match segStart with
  | some s => s
  | none => match cues with
    | [] => 0
    | cu :: _ => cu.startTime

/-- ceilTime of interpolateMissing (srt-parser.js line 244); n is the
mapping length. -/
def ceilTimeOf (cues : List Cue) (n : ℕ) (segEnd : Option ℚ) : ℚ :=
  match segEnd with
  | some e => e
  | none => match cues.getLast? with
    | some cu => cu.endTime
    | none => (n : ℚ) * 2

/-- Reading the times array at i (out of range reads as null). -/
def tget (ts : List (Option ℚ)) (i : ℕ) : Option ℚ := ts.getD i none

/-- The value at i, defaulting to 0 (only read where a value exists). -/
def tval (ts : List (Option ℚ)) (i : ℕ) : ℚ := (tget ts i).getD 0

/-- The backward scan for prevIdx: j = i-1, i-2, ..., 0, first j with a
non-null time (srt-parser.js lines 268-270). -/
def findPrev (ts : List (Option ℚ)) : ℕ → Option ℕ
  | 0 => none
  | j + 1 => if (tget ts j).isSome then some j else findPrev ts j

/-- Worker for findNext: scan j, j+1, ... for the given number of steps. -/
def findNextAux (ts : List (Option ℚ)) : ℕ → ℕ → Option ℕ
  | _, 0 => none
  | j, fuel + 1 => if (tget ts j).isSome then some j else findNextAux ts (j + 1) fuel

/-- The forward scan for nextIdx: j = i+1, ..., length-1, first j with a
non-null time (srt-parser.js lines 271-273). -/
def findNext (ts : List (Option ℚ)) (i : ℕ) : Option ℕ :=
  findNextAux ts (i + 1) (ts.length - (i + 1))

/-- One iteration of the interpolation loop of interpolateMissing at
index i (srt-parser.js lines 263-293): skip non-null entries, otherwise
interpolate between the nearest known neighbors, or extrapolate toward
the ceiling after the last anchor, or backward from the first anchor
clamped at the floor. -/
def fillStep (f c : ℚ) (ts : List (Option ℚ)) (i : ℕ) : List (Option ℚ) :=
  if (tget ts i).isSome then ts
  else
    match findPrev ts i, findNext ts i with
    | some p, some n =>
      let frac : ℚ := ((i : ℚ) - (p : ℚ)) / ((n : ℚ) - (p : ℚ))
      ts.set i (some (tval ts p + frac * (tval ts n - tval ts p)))
    | some p, none =>
      let unmatchedAfter : ℕ := ts.length - 1 - p
      let step : ℚ :=
        if 0 < unmatchedAfter then (c - tval ts p) / (unmatchedAfter : ℚ) else 0
      ts.set i (some (tval ts p + ((i : ℚ) - (p : ℚ)) * step))
    | none, some n =>
      let step : ℚ := if 0 < n then (tval ts n - f) / (n : ℚ) else 0
      ts.set i (some (qmax f (tval ts n - ((n : ℚ) - (i : ℚ)) * step)))
    | none, none => ts

/-- The interpolation loop, run over the given indices in order. -/
def fillLoop (f c : ℚ) : List (Option ℚ) → List ℕ → List (Option ℚ)
  | ts, [] => ts
  | ts, i :: rest => fillLoop f c (fillStep f c ts i) rest

/-- The no-anchor branch of interpolateMissing (srt-parser.js lines
249-260): all n beats spread evenly across [floor, ceil], a single beat
placed at the midpoint. -/
def noAnchorTimes (n : ℕ) (f c : ℚ) : List ℚ :=
  (List.range n).map
    (fun (i : ℕ) =>
      if n = 1 then (f + c) / 2 else f + ((i : ℚ) / ((n : ℚ) - 1)) * (c - f))

/-- interpolateMissing before the final millisecond rounding
(srt-parser.js lines 232-295). -/
def interpolateMissingCore (mapping : List BeatMatchEntry) (cues : List Cue)
    (segStart segEnd : Option ℚ) : List (Option ℚ) :=
  let ts := initialTimes mapping
  let f := floorTimeOf cues segStart
  let c := ceilTimeOf cues mapping.length segEnd
  if ts.any Option.isSome then fillLoop f c ts (List.range ts.length)
  else (noAnchorTimes ts.length f c).map some

/-- interpolateMissing (srt-parser.js lines 232-296): the core loop
followed by rounding every entry to millisecond precision. -/
def interpolateMissing (mapping : List BeatMatchEntry) (cues : List Cue)
    (segStart segEnd : Option ℚ) : List ℚ :=
  (interpolateMissingCore mapping cues segStart segEnd).map
    (fun t => round3 (t.getD 0))

/-- The result record of mapSrtToBeatsIntelligent (srt-parser.js lines
61-69 and 154-163). -/
structure BeatsResult where
  beatTimes : List ℚ
  cueCount : ℕ
  beatCount : ℕ
  matched : Bool
  matchedCount : Option ℕ
  mapping : Option (List BeatMatchEntry)
  method : String
deriving DecidableEq

/-- mapSrtToBeatsIntelligent (srt-parser.js lines 55-164), taking the
already-parsed cue list in place of raw SRT text: an empty (or missing)
beat list falls back to the dumb 1:1 mapping, otherwise the forward-only
matcher runs and unmatched beats are interpolated. -/
def mapSrtToBeatsIntelligentCues (cues : List Cue) (beatTexts : List String)
    (beatTypes : Option (List String)) (segStart segEnd : Option ℚ) : BeatsResult :=
  if beatTexts = [] then
    { beatTimes := cues.map (fun cu => cu.startTime), cueCount := cues.length,
      beatCount := 0, matched := false, matchedCount := none, mapping := none,
      method := "fallback" }
  else
    let cueTexts := cues.map (fun cu => normalizeL cu.text.data)
    let mapping := alignFrom cues cueTexts beatTypes 0 0 beatTexts
    let matchedCount := (mapping.filter (fun m => m.cueIdx.isSome)).length
    { beatTimes := interpolateMissing mapping cues segStart segEnd,
      cueCount := cues.length, beatCount := beatTexts.length,
      matched := decide (matchedCount = beatTexts.length),
      matchedCount := some matchedCount, mapping := some mapping,
      method := "text-match" }

/-- One project segment as consumed by mapSrtToSegments: ordinal, script
text, associated file identifiers (opaque here). -/
structure SrtSegment where
  num : ℕ
  script : String
  htmlFiles : List String
deriving DecidableEq

/-- Pass-1 per-segment result of mapSrtToSegments (srt-parser.js lines
357-445). -/
structure RawMatch where
  num : ℕ
  matched : Bool
  confidence : ℤ
  startCueIdx : Option ℕ
  endCueIdx : Option ℕ
  htmlFiles : List String
deriving DecidableEq

instance : Inhabited RawMatch := ⟨⟨0, false, 0, none, none, []⟩⟩

/-- The stop-word list of mapSrtToSegments (srt-parser.js lines 337-345). -/
def stopWordsL : List (List Char) :=
  (["the", "a", "an", "is", "it", "in", "on", "to", "of", "and", "or", "but",
    "that", "this", "with", "for", "not", "are", "was", "be", "has", "had",
    "do", "does", "did", "will", "would", "could", "should", "can", "may",
    "i", "you", "he", "she", "we", "they", "my", "your", "his", "her", "our",
    "their", "its", "if", "so", "at", "by", "from", "up", "out", "no", "yes",
    "just", "all", "more", "some", "than", "then", "when", "what", "how",
    "about", "into", "over", "after", "before", "between", "through"]).map
    String.data

/-- A content word: length above 2 and not a stop word (srt-parser.js
lines 347-353). -/
def isContentWord (w : List Char) : Bool :=
  decide (2 < w.length) && !(decide (w ∈ stopWordsL))

/-- Set insertion for the expanding window (JS Set.add). -/
def addWord (ws : List (List Char)) (w : List Char) : List (List Char) :=
  if w ∈ ws then ws else ws ++ [w]

/-- Add all words of one cue to a window set. -/
def addWords (ws : List (List Char)) (l : List (List Char)) : List (List Char) :=
  l.foldl addWord ws

/-- State of the expanding-window loop of pass 1: the window word set,
its content-word subset, the per-start peak score, the
no-improvement counter, and the global best (score, start, end). -/
structure WinState where
  windowWords : List (List Char)
  windowContent : List (List Char)
  peak : ℚ
  noImp : ℕ
  best : ℚ × Option (ℕ × ℕ)

/-- The inner expanding-window loop of pass 1 for one start position
(srt-parser.js lines 388-433): grow end while under the 40-cue cap,
score the window with 0.6 srtCoverage + 0.4 scriptCoverage, track the
per-start peak and the global best, and stop after more than 10
additions without improvement.  The remaining cue word sets are the
cues from endIdx on. -/
def expandLoop (scriptFull scriptContent : List (List Char)) (start : ℕ) :
    ℕ → List (List (List Char)) → WinState → ℚ × Option (ℕ × ℕ)
  | _, [], st => st.best
  | endIdx, cueWs :: rest, st =>
    if start + 40 ≤ endIdx then st.best
    else
      let ww := addWords st.windowWords cueWs
      let wc := addWords st.windowContent (cueWs.filter isContentWord)
      if wc = [] then
        expandLoop scriptFull scriptContent start (endIdx + 1) rest
          { st with windowWords := ww, windowContent := wc }
      else
        let cov1 := (wc.filter (fun w => decide (w ∈ scriptFull))).length
        let srtCoverage : ℚ := (cov1 : ℚ) / (wc.length : ℚ)
        let cov2 := (scriptContent.filter (fun w => decide (w ∈ ww))).length
        let scriptCoverage : ℚ :=
          if 0 < scriptContent.length then (cov2 : ℚ) / (scriptContent.length : ℚ)
          else 0
        let score := srtCoverage * (6/10) + scriptCoverage * (4/10)
        let peakNoImp := if st.peak < score then (score, 0) else (st.peak, st.noImp + 1)
        let best := if st.best.1 < score then (score, some (start, endIdx)) else st.best
        if 10 < peakNoImp.2 then best
        else
          expandLoop scriptFull scriptContent start (endIdx + 1) rest
            ⟨ww, wc, peakNoImp.1, peakNoImp.2, best⟩

/-- Pass 1 window search over every start position (srt-parser.js lines
376-434): initial best is (0, no window). -/
def pass1Best (cueWordSets : List (List (List Char)))
    (scriptFull scriptContent : List (List Char)) : ℚ × Option (ℕ × ℕ) :=
  (List.range cueWordSets.length).foldl
    (fun best start =>
      expandLoop scriptFull scriptContent start start (cueWordSets.drop start)
        ⟨[], [], 0, 0, best⟩)
    (0, none)

/-- Pass 1 for one segment (srt-parser.js lines 359-445): scripts whose
normalized text is shorter than 10 characters are unmatched; otherwise
the best window is kept and the segment is matched when its score
reaches 0.25. -/
def pass1Segment (cueWordSets : List (List (List Char))) (seg : SrtSegment) :
    RawMatch :=
  let scriptNorm := normalizeL seg.script.data
  if scriptNorm.length < 10 then
    { num := seg.num, matched := false, confidence := 0, startCueIdx := none,
      endCueIdx := none, htmlFiles := seg.htmlFiles }
  else
    let scriptFull := (jsWords scriptNorm).dedup
    let scriptContent := scriptFull.filter isContentWord
    let best := pass1Best cueWordSets scriptFull scriptContent
    let matched := decide ((1 : ℚ)/4 ≤ best.1) && best.2.isSome
    { num := seg.num, matched := matched,
      confidence := jsRound (best.1 * 100),
      startCueIdx := if matched then best.2.map Prod.fst else none,
      endCueIdx := if matched then best.2.map Prod.snd else none,
      htmlFiles := seg.htmlFiles }

/-- The pass-2 validity check of a candidate cue range for the segment
at position idx against the already-assigned ranges (srt-parser.js lines
464-474): every earlier segment's range must end strictly before this
one starts, every later segment's range must start strictly after this
one ends. -/
def validRange (assigned : List (Option (ℕ × ℕ))) (idx : ℕ) (r : ℕ × ℕ) : Bool :=
  assigned.enum.all fun p =>
    match p.2 with
    | none => true
    | some a =>
      if p.1 < idx then decide (a.2 < r.1)
      else if idx < p.1 then decide (r.2 < a.1)
      else true

/-- Demote a raw match to unmatched (srt-parser.js lines 479-481). -/
def unmatchRaw (m : RawMatch) : RawMatch :=
  { m with matched := false, startCueIdx := none, endCueIdx := none }

/-- The pass-2 greedy loop (srt-parser.js lines 459-483) over the
confidence-sorted matched candidates: accept a candidate by recording
its range in assigned, or demote it to unmatched in the raw list. -/
def pass2Fold : List (ℕ × RawMatch) →
    List (Option (ℕ × ℕ)) × List RawMatch →
    List (Option (ℕ × ℕ)) × List RawMatch
  | [], st => st
  | (idx, m) :: rest, (assigned, rms) =>
    match m.startCueIdx, m.endCueIdx with
    | some s, some e =>
      if validRange assigned idx (s, e) then
        pass2Fold rest (assigned.set idx (some (s, e)), rms)
      else
        pass2Fold rest (assigned, rms.set idx (unmatchRaw (rms.getD idx default)))
    | _, _ => pass2Fold rest (assigned, rms)

/-- The matched candidates with their original positions, sorted by
descending confidence; the sort is stable, as required of JS sort
(srt-parser.js lines 451-454). -/
def sortedMatchedIdxs (rawMatches : List RawMatch) : List (ℕ × RawMatch) :=
  (rawMatches.enum.filter (fun p => p.2.matched)).mergeSort
    (fun a b => decide (b.2.confidence ≤ a.2.confidence))

/-- One final segment match (srt-parser.js lines 487-496).  The JS pair
of nullable startTime/endTime fields is modelled as one optional pair:
the code only ever produces them both null or both set. -/
structure SegMatch where
  num : ℕ
  matched : Bool
  confidence : ℤ
  startCueIdx : Option ℕ
  endCueIdx : Option ℕ
  timing : Option (ℚ × ℚ)
  htmlFiles : List String
deriving DecidableEq

instance : Inhabited SegMatch := ⟨⟨0, false, 0, none, none, none, []⟩⟩

/-- Build the final per-segment records with cue-range times
(srt-parser.js lines 487-496). -/
def buildSegMatches (cues : List Cue) (rms : List RawMatch) : List SegMatch :=
  rms.map fun m =>
    { num := m.num, matched := m.matched, confidence := m.confidence,
      startCueIdx := m.startCueIdx, endCueIdx := m.endCueIdx,
      timing :=
        match m.startCueIdx, m.endCueIdx with
        | some s, some e =>
          some ((cues.getD s default).startTime, (cues.getD e default).endTime)
        | _, _ => none,
      htmlFiles := m.htmlFiles }

/-- The backward scan for the previous segment with timing
(srt-parser.js lines 521-523). -/
def segFindPrev (ms : List SegMatch) : ℕ → Option ℕ
  | 0 => none
  | j + 1 => if ((ms.getD j default).timing).isSome then some j else segFindPrev ms j

/-- Worker for segFindNext. -/
def segFindNextAux (ms : List SegMatch) : ℕ → ℕ → Option ℕ
  | _, 0 => none
  | j, fuel + 1 =>
    if ((ms.getD j default).timing).isSome then some j
    else segFindNextAux ms (j + 1) fuel

/-- The forward scan for the next segment with timing (srt-parser.js
lines 524-526). -/
def segFindNext (ms : List SegMatch) (i : ℕ) : Option ℕ :=
  segFindNextAux ms (i + 1) (ms.length - (i + 1))

/-- The timing pair at position j (only read where timing exists). -/
def segTimingAt (ms : List SegMatch) (j : ℕ) : ℚ × ℚ :=
  ((ms.getD j default).timing).getD (0, 0)

/-- Write a timing pair at position i. -/
def setTiming (ms : List SegMatch) (i : ℕ) (t : ℚ × ℚ) : List SegMatch :=
  ms.set i { ms.getD i default with timing := some t }

/-- One iteration of interpolateSegmentTiming at index i (srt-parser.js
lines 516-547): interpolate between matched neighbors, or extrapolate
with a 3-second gap per segment, or fall back to 3-second slots. -/
def segFillStep (ms : List SegMatch) (i : ℕ) : List SegMatch :=
  if ((ms.getD i default).timing).isSome then ms
  else
    match segFindPrev ms i, segFindNext ms i with
    | some p, some n =>
      let span : ℚ := (n : ℚ) - (p : ℚ)
      let prevEnd := (segTimingAt ms p).2
      let nextStart := (segTimingAt ms n).1
      let s := prevEnd + (((i : ℚ) - (p : ℚ)) / span) * (nextStart - prevEnd)
      let e := prevEnd + (((i : ℚ) - (p : ℚ) + 1) / span) * (nextStart - prevEnd)
      setTiming ms i (s, e)
    | some p, none =>
      let s := (segTimingAt ms p).2 + ((i : ℚ) - (p : ℚ)) * 3
      setTiming ms i (s, s + 3)
    | none, some n =>
      let s := qmax 0 ((segTimingAt ms n).1 - ((n : ℚ) - (i : ℚ)) * 3)
      setTiming ms i (s, s + 3)
    | none, none => setTiming ms i ((i : ℚ) * 3, ((i : ℚ) + 1) * 3)

/-- interpolateSegmentTiming (srt-parser.js lines 515-548): the in-place
fill loop over all indices in order. -/
def interpolateSegmentTiming (ms : List SegMatch) : List SegMatch :=
  (List.range ms.length).foldl segFillStep ms

/-- The result record of mapSrtToSegments (srt-parser.js lines 503-509). -/
structure SegmentsResult where
  segmentMatches : List SegMatch
  matchedCount : ℕ
  totalSegments : ℕ
  cueCount : ℕ
deriving DecidableEq

/-- mapSrtToSegments (srt-parser.js lines 329-510), taking the parsed
cue list in place of raw SRT text: pass 1 finds each segment's best
window independently, pass 2 greedily accepts ranges by descending
confidence subject to segment order, then timing is interpolated. -/
def mapSrtToSegmentsCues (cues : List Cue) (segments : List SrtSegment) :
    SegmentsResult :=
  let cueTextsNorm := cues.map (fun cu => normalizeL cu.text.data)
  let cueWordSets := cueTextsNorm.map (fun t => (jsWords t).dedup)
  let rawMatches := segments.map (pass1Segment cueWordSets)
  let st := pass2Fold (sortedMatchedIdxs rawMatches)
    (List.replicate segments.length none, rawMatches)
  let segmentMatches := interpolateSegmentTiming (buildSegMatches cues st.2)
  { segmentMatches := segmentMatches,
    matchedCount := (segmentMatches.filter (fun s => s.matched)).length,
    totalSegments := segments.length, cueCount := cues.length }

/-- ASCII digit test. -/
def isDigitChar (c : Char) : Bool := 48 ≤ c.toNat && c.toNat ≤ 57

/-- Numeric value of a digit string. -/
def digitsVal (l : List Char) : ℕ :=
  l.foldl (fun acc c => 10 * acc + (c.toNat - 48)) 0

/-- Model of JS parseInt with radix 10: skip leading whitespace, read an
optional sign and a digit run, ignore anything after; NaN (none) when no
digits are found. -/
def jsParseInt (s : List Char) : Option ℤ :=
  let t := s.dropWhile isJsSpace
  let signRest : ℤ × List Char :=
    match t with
    | '-' :: r => (-1, r)
    | '+' :: r => (1, r)
    | _ => (1, t)
  let ds := signRest.2.takeWhile isDigitChar
  if ds = [] then none else some (signRest.1 * (digitsVal ds : ℤ))

/-- Model of JS parseFloat: skip leading whitespace, read an optional
sign, an integer digit run, and an optional decimal point with a
fraction digit run, ignoring anything after; NaN (none) when no digits
are found.  Exponents and the Infinity literal are outside this model. -/
def jsParseFloat (s : List Char) : Option ℚ :=
  let t := s.dropWhile isJsSpace
  let signRest : ℚ × List Char :=
    match t with
    | '-' :: r => (-1, r)
    | '+' :: r => (1, r)
    | _ => (1, t)
  let intPart := signRest.2.takeWhile isDigitChar
  let rest := signRest.2.drop intPart.length
  let fracPart :=
    match rest with
    | '.' :: r => r.takeWhile isDigitChar
    | _ => []
  if intPart = [] ∧ fracPart = [] then none
  else
    some (signRest.1 *
      ((digitsVal intPart : ℚ) + (digitsVal fracPart : ℚ) / (10 : ℚ) ^ fracPart.length))

/-- The JS replace of the first comma by a period (String.replace with a
string pattern replaces only the first occurrence). -/
def replaceFirstComma : List Char → List Char
  | [] => []
  | c :: r => if c = ',' then '.' :: r else c :: replaceFirstComma r

/-- Model of JS split on one character. -/
def splitOnChar (sep : Char) : List Char → List (List Char)
  | [] => [[]]
  | c :: r =>
    if c = sep then [] :: splitOnChar sep r
    else
      match splitOnChar sep r with
      | [] => [[c]]
      | w :: ws => (c :: w) :: ws

/-- timeToSeconds (srt-parser.js lines 301-312).  The JS number result
is modelled as Option ℚ with none standing for NaN: a falsy (empty)
input gives 0; a three-part split is parsed as hours, minutes, seconds
and NaN from any part propagates; anything else is parsed as a bare
number with NaN collapsed to 0 by the trailing or-zero. -/
def timeToSeconds (timeStr : String) : Option ℚ :=
  if timeStr = "" then some 0
  else
    let clean := replaceFirstComma timeStr.data
    let parts := splitOnChar ':' clean
    if parts.length = 3 then
      match jsParseInt (parts.getD 0 []), jsParseInt (parts.getD 1 []),
          jsParseFloat (parts.getD 2 []) with
      | some h, some m, some s => some ((h : ℚ) * 3600 + (m : ℚ) * 60 + s)
      | _, _, _ => none
    else
      some ((jsParseFloat clean).getD 0)

/-! ### Normalization: structure of normalized text and idempotence -/

/-- Characters that can appear in fully normalized text: non-uppercase
word characters, or the plain space. -/
def GoodChar (c : Char) : Prop :=
  (isWordChar c = true ∧ ¬(65 ≤ c.toNat ∧ c.toNat ≤ 90)) ∨ c = ' '

/-- Characters after lowercasing and replacing: non-uppercase word
characters, or any whitespace character. -/
def PreChar (c : Char) : Prop :=
  (isWordChar c = true ∧ ¬(65 ≤ c.toNat ∧ c.toNat ≤ 90)) ∨ isJsSpace c = true

/-- No two adjacent whitespace characters. -/
def NoTwo (x y : Char) : Prop := isJsSpace x = false ∨ isJsSpace y = false

/-- A mapping whose two matched beats carry decreasing anchor times. -/
def mapping3c : List BeatMatchEntry :=
  [⟨0, some 0, some 0, 0, "a", none, some 5, none⟩,
   ⟨1, some 1, some 1, 0, "b", none, some 1, none⟩]

/-- A mapping whose two matched beats carry increasing anchor times. -/
def mapping3w : List BeatMatchEntry :=
  [⟨0, some 0, some 0, 0, "a", none, some 1, none⟩,
   ⟨1, some 1, some 1, 0, "b", none, some 2, none⟩]

/-- The word alphaalpha as a character list. -/
def wA : List Char := "alphaalpha".data

/-- The word betabetabeta as a character list. -/
def wB : List Char := "betabetabeta".data

/-- Two cues whose texts are the two words. -/
def cues2w : List Cue := [⟨1, 0, 2, "alphaalpha"⟩, ⟨2, 2, 4, "betabetabeta"⟩]

/-- Two segments whose scripts are the two words. -/
def segs2w : List SrtSegment := [⟨1, "alphaalpha", []⟩, ⟨2, "betabetabeta", []⟩]


lemma isWordChar_not_space {c : Char} (h : isWordChar c = true) :
    isJsSpace c = false := by
  simp only [isWordChar, Bool.or_eq_true, Bool.and_eq_true, decide_eq_true_eq,
    beq_iff_eq] at h
  by_contra hc
  rw [Bool.not_eq_false] at hc
  simp only [isJsSpace, Bool.or_eq_true, Bool.and_eq_true, decide_eq_true_eq,
    beq_iff_eq] at hc
  omega

lemma charLower_eq_self {c : Char} (h : ¬(65 ≤ c.toNat ∧ c.toNat ≤ 90)) :
    charLower c = c := by
  rw [charLower, if_neg]
  simpa [Bool.and_eq_true, decide_eq_true_eq] using h

lemma charLower_toNat_of_upper {c : Char} (h1 : 65 ≤ c.toNat) (h2 : c.toNat ≤ 90) :
    (charLower c).toNat = c.toNat + 32 := by
  have hv : (c.toNat + 32).isValidChar := Or.inl (by omega)
  rw [charLower, if_pos (by simp [Bool.and_eq_true, decide_eq_true_eq, h1, h2])]
  show (Char.ofNat (c.toNat + 32)).toNat = c.toNat + 32
  rw [Char.ofNat, dif_pos hv]
  rfl

lemma charLower_not_upper (c : Char) :
    ¬(65 ≤ (charLower c).toNat ∧ (charLower c).toNat ≤ 90) := by
  by_cases h : 65 ≤ c.toNat ∧ c.toNat ≤ 90
  · rw [charLower_toNat_of_upper h.1 h.2]
    omega
  · rw [charLower_eq_self h]
    exact h

lemma mChar_pre (c : Char) : PreChar (mChar c) := by
  rw [mChar, replaceChar]
  by_cases hw : isWordChar (charLower c) = true
  · rw [if_pos (by simp [hw])]
    exact Or.inl ⟨hw, charLower_not_upper c⟩
  · by_cases hs : isJsSpace (charLower c) = true
    · rw [if_pos (by simp [hs])]
      exact Or.inr hs
    · rw [if_neg (by simp [hw, hs])]
      exact Or.inr (by decide)

lemma goodChar_mChar_eq {c : Char} (h : GoodChar c) : mChar c = c := by
  rcases h with ⟨hw, hu⟩ | hsp
  · rw [mChar, charLower_eq_self hu, replaceChar, if_pos (by simp [hw])]
  · subst hsp
    rw [mChar, charLower_eq_self (by decide), replaceChar]
    rw [if_pos (by decide)]

lemma map_mChar_id {l : List Char} (h : ∀ c ∈ l, GoodChar c) :
    l.map mChar = l := by
  induction l with
  | nil => rfl
  | cons c r ih =>
    simp only [List.map_cons, goodChar_mChar_eq (h c (by simp)),
      ih (fun x hx => h x (by simp [hx]))]

lemma collapseAux_mem :
    ∀ (b : Bool) (l : List Char) (c : Char), c ∈ collapseAux b l →
      (c ∈ l ∧ isJsSpace c = false) ∨ c = ' ' := by
  intro b l
  induction l generalizing b with
  | nil => intro c h; simp [collapseAux] at h
  | cons a r ih =>
    intro c h
    rw [collapseAux] at h
    by_cases hs : isJsSpace a = true
    · rw [if_pos hs] at h
      rcases b with _ | _
      · simp only [Bool.false_eq_true, if_false, List.mem_cons] at h
        rcases h with h | h
        · exact Or.inr h
        · rcases ih true c h with ⟨hm, hns⟩ | hsp
          · exact Or.inl ⟨by simp [hm], hns⟩
          · exact Or.inr hsp
      · rcases ih true c (by simpa using h) with ⟨hm, hns⟩ | hsp
        · exact Or.inl ⟨by simp [hm], hns⟩
        · exact Or.inr hsp
    · rw [if_neg hs] at h
      rcases List.mem_cons.mp h with h | h
      · subst h
        exact Or.inl ⟨by simp, by simpa using hs⟩
      · rcases ih false c h with ⟨hm, hns⟩ | hsp
        · exact Or.inl ⟨by simp [hm], hns⟩
        · exact Or.inr hsp

lemma collapseAux_true_head :
    ∀ (l : List Char) (c : Char), (collapseAux true l).head? = some c →
      isJsSpace c = false := by
  intro l
  induction l with
  | nil => intro c h; simp [collapseAux] at h
  | cons a r ih =>
    intro c h
    rw [collapseAux] at h
    by_cases hs : isJsSpace a = true
    · rw [if_pos hs, if_pos rfl] at h
      exact ih c h
    · rw [if_neg hs] at h
      simp only [List.head?_cons, Option.some.injEq] at h
      subst h
      simpa using hs

lemma collapseAux_chain :
    ∀ (b : Bool) (l : List Char), List.Chain' NoTwo (collapseAux b l) := by
  intro b l
  induction l generalizing b with
  | nil => simp [collapseAux]
  | cons a r ih =>
    rw [collapseAux]
    by_cases hs : isJsSpace a = true
    · rw [if_pos hs]
      rcases b with _ | _
      · simp only [Bool.false_eq_true, if_false]
        rw [List.chain'_cons']
        refine ⟨fun y hy => Or.inr (collapseAux_true_head r y hy), ih true⟩
      · simpa using ih true
    · rw [if_neg hs]
      rw [List.chain'_cons']
      exact ⟨fun y _ => Or.inl (by simpa using hs), ih false⟩

lemma dropWhile_head_false {p : Char → Bool} :
    ∀ (l : List Char) (c : Char), (l.dropWhile p).head? = some c → p c = false := by
  intro l
  induction l with
  | nil => intro c h; simp [List.dropWhile] at h
  | cons a r ih =>
    intro c h
    rw [List.dropWhile_cons] at h
    by_cases ha : p a = true
    · rw [if_pos ha] at h
      exact ih c h
    · rw [if_neg ha] at h
      simp only [List.head?_cons, Option.some.injEq] at h
      subst h
      simpa using ha

lemma dropWhile_eq_self_of_head {p : Char → Bool} :
    ∀ l : List Char, (∀ c, l.head? = some c → p c = false) → l.dropWhile p = l := by
  intro l h
  cases l with
  | nil => rfl
  | cons a r =>
    rw [List.dropWhile_cons, if_neg]
    simp [h a rfl]

lemma getLast?_dropWhile {p : Char → Bool} :
    ∀ l : List Char, l.dropWhile p ≠ [] →
      (l.dropWhile p).getLast? = l.getLast? := by
  intro l
  induction l with
  | nil => intro h; simp [List.dropWhile] at h
  | cons a r ih =>
    intro h
    rw [List.dropWhile_cons] at h ⊢
    by_cases ha : p a = true
    · rw [if_pos ha] at h ⊢
      have hr : r ≠ [] := by
        intro he
        subst he
        simp [List.dropWhile] at h
      obtain ⟨x, xs, rfl⟩ := List.exists_cons_of_ne_nil hr
      rw [ih h, List.getLast?_cons_cons]
    · rw [if_neg ha]

lemma trimL_fix {l : List Char}
    (hh : ∀ c, l.head? = some c → isJsSpace c = false)
    (hl : ∀ c, l.getLast? = some c → isJsSpace c = false) : trimL l = l := by
  rw [trimL, dropWhile_eq_self_of_head l hh, dropWhile_eq_self_of_head, List.reverse_reverse]
  intro c hc
  rw [List.head?_reverse] at hc
  exact hl c hc

lemma collapse_fix :
    ∀ l : List Char, (∀ c ∈ l, GoodChar c) → List.Chain' NoTwo l →
      collapseAux false l = l ∧
      ((∀ c, l.head? = some c → isJsSpace c = false) → collapseAux true l = l) := by
  intro l
  induction l with
  | nil => exact fun _ _ => ⟨rfl, fun _ => rfl⟩
  | cons a r ih =>
    intro hg hc
    have hgr : ∀ c ∈ r, GoodChar c := fun x hx => hg x (by simp [hx])
    have hcr : List.Chain' NoTwo r := (List.chain'_cons'.mp hc).2
    rcases hg a (by simp) with ⟨hw, _⟩ | hsp
    · have hns : isJsSpace a = false := isWordChar_not_space hw
      constructor
      · rw [collapseAux, if_neg (by simp [hns]), (ih hgr hcr).1]
      · intro _
        rw [collapseAux, if_neg (by simp [hns]), (ih hgr hcr).1]
    · subst hsp
      constructor
      · have hhead : ∀ c, r.head? = some c → isJsSpace c = false := by
          intro c hch
          rcases (List.chain'_cons'.mp hc).1 c hch with h | h
          · exact absurd h (by decide)
          · exact h
        rw [collapseAux, if_pos (by decide), if_neg (by simp), (ih hgr hcr).2 hhead]
      · intro hhd
        have h0 := hhd ' ' rfl
        exact absurd h0 (by decide)

/-- Everything established about the output of normalizeL. -/
def NormOK (l : List Char) : Prop :=
  (∀ c ∈ l, GoodChar c) ∧ List.Chain' NoTwo l ∧
  (∀ c, l.head? = some c → isJsSpace c = false) ∧
  (∀ c, l.getLast? = some c → isJsSpace c = false)

lemma normalizeL_normOK (l : List Char) : NormOK (normalizeL l) := by
  rw [normalizeL, collapseWs]
  set X := collapseAux false (l.map mChar) with hX
  have hXmem : ∀ c ∈ X, GoodChar c := by
    intro c hc
    rcases collapseAux_mem false (l.map mChar) c hc with ⟨hm, hns⟩ | hsp
    · rcases List.mem_map.mp hm with ⟨d, _, hd⟩
      rcases hd ▸ mChar_pre d with h | h
      · exact Or.inl h
      · simp [h] at hns
    · exact Or.inr hsp
  have hXchain : List.Chain' NoTwo X := collapseAux_chain false (l.map mChar)
  have hmem : ∀ c ∈ trimL X, c ∈ X := by
    intro c hc
    rw [trimL] at hc
    rw [List.mem_reverse] at hc
    have h1 : c ∈ (X.dropWhile isJsSpace).reverse :=
      ((List.dropWhile_suffix _).sublist).mem hc
    rw [List.mem_reverse] at h1
    exact ((List.dropWhile_suffix _).sublist).mem h1
  refine ⟨fun c hc => hXmem c (hmem c hc), ?_, ?_, ?_⟩
  · rw [trimL]
    have h1 : List.Chain' NoTwo (X.dropWhile isJsSpace) :=
      hXchain.suffix (List.dropWhile_suffix _)
    have h1r : List.Chain' NoTwo (X.dropWhile isJsSpace).reverse := by
      rw [List.chain'_reverse]
      exact h1.imp (fun a b h => Or.symm h)
    have h2 : List.Chain' NoTwo ((X.dropWhile isJsSpace).reverse.dropWhile isJsSpace) :=
      h1r.suffix (List.dropWhile_suffix _)
    rw [List.chain'_reverse]
    exact h2.imp (fun a b h => Or.symm h)
  · intro c hc
    rw [trimL, List.head?_reverse] at hc
    have hne : (X.dropWhile isJsSpace).reverse.dropWhile isJsSpace ≠ [] := by
      intro he
      rw [he] at hc
      simp at hc
    rw [getLast?_dropWhile _ hne, List.getLast?_reverse] at hc
    exact dropWhile_head_false X c hc
  · intro c hc
    rw [trimL, List.getLast?_reverse] at hc
    exact dropWhile_head_false (X.dropWhile isJsSpace).reverse c hc

lemma normalizeL_fix {l : List Char} (h : NormOK l) : normalizeL l = l := by
  obtain ⟨h1, h2, h3, h4⟩ := h
  rw [normalizeL, map_mChar_id h1, collapseWs, (collapse_fix l h1 h2).1,
    trimL_fix h3 h4]

/-- C8: for every string s, normalize (normalize s) = normalize s: the
normalization of srt-parser.js lines 169-175 (lowercase, replace
non-word characters with spaces, collapse whitespace runs, trim) is
idempotent. -/
theorem normalizeText_idempotent (s : String) :
    normalizeText (normalizeText s) = normalizeText s := by
  have h := normalizeL_normOK s.data
  show (⟨normalizeL (String.data ⟨normalizeL s.data⟩)⟩ : String) = ⟨normalizeL s.data⟩
  exact congrArg String.mk (normalizeL_fix h)

/-! ### Similarity bounds (C5) -/

lemma qmin_le_left (a b : ℚ) : qmin a b ≤ a := by
  rw [qmin]
  split
  · exact le_refl a
  · exact le_of_not_le (by assumption)

lemma qmin_nonneg {a b : ℚ} (ha : 0 ≤ a) (hb : 0 ≤ b) : 0 ≤ qmin a b := by
  rw [qmin]
  split
  · exact ha
  · exact hb

lemma qmin_eq_left {a b : ℚ} (h : a ≤ b) : qmin a b = a := if_pos h

lemma le_qmax_left (a b : ℚ) : a ≤ qmax a b := by
  rw [qmax]
  split
  · assumption
  · exact le_refl a

lemma le_qmax_right (a b : ℚ) : b ≤ qmax a b := by
  rw [qmax]
  split
  · exact le_refl b
  · exact le_of_not_le (by assumption)

lemma qmax_le {a b c : ℚ} (ha : a ≤ c) (hb : b ≤ c) : qmax a b ≤ c := by
  rw [qmax]
  split
  · exact hb
  · exact ha

lemma qmax_nonneg {a b : ℚ} (ha : 0 ≤ a) : 0 ≤ qmax a b :=
  le_trans ha (le_qmax_left a b)

lemma occursIn_self (l : List Char) : occursIn l l = true := by
  have h : ∀ m : List Char, leadsWith m m = true := by
    intro m
    induction m with
    | nil => rfl
    | cons c r ih => simp [leadsWith, ih]
  cases l with
  | nil => rfl
  | cons c r =>
    rw [occursIn]
    simp [h]

lemma jsWords_ne_nil {l : List Char} (h : ∃ c ∈ l, c ≠ ' ') : jsWords l ≠ [] := by
  induction l with
  | nil => simp at h
  | cons c r ih =>
    rw [jsWords, splitBySpace]
    by_cases hc : c = ' '
    · rw [if_pos hc]
      rcases h with ⟨d, hd, hne⟩
      rcases List.mem_cons.mp hd with rfl | hdr
      · exact absurd hc hne
      · have := ih ⟨d, hdr, hne⟩
        rw [jsWords] at this
        simpa using this
    · rw [if_neg hc]
      rcases he : splitBySpace r with _ | ⟨w, ws⟩
      · simp
      · simp

lemma similarityL_nonneg_le_one (a b : List Char) :
    0 ≤ similarityL a b ∧ similarityL a b ≤ 1 := by
  rw [similarityL]
  split
  · norm_num
  · split
    · norm_num
    · constructor
      · apply qmin_nonneg (by norm_num)
        have hj : (0 : ℚ) ≤ (overlapCount a b : ℚ) /
            ((max (wordSet a).length (wordSet b).length : ℕ) : ℚ) :=
          div_nonneg (Nat.cast_nonneg _) (Nat.cast_nonneg _)
        have hb : (0 : ℚ) ≤
            (if occursIn b a || occursIn a b then (3 : ℚ)/10 else 0) := by
          split <;> norm_num
        refine add_nonneg (le_trans hj (le_qmax_left _ _)) hb
      · exact qmin_le_left _ _

lemma similarityL_self {l : List Char} (h : ∃ c ∈ l, c ≠ ' ') :
    similarityL l l = 1 := by
  have hne : l ≠ [] := by
    rcases h with ⟨c, hc, _⟩
    exact List.ne_nil_of_mem hc
  have hw : jsWords l ≠ [] := jsWords_ne_nil h
  rw [similarityL, if_neg (by simp [hne]), if_neg (by simp [hw])]
  have hws : wordSet l ≠ [] := by
    rw [wordSet]
    simpa using hw
  have hlen : 0 < (wordSet l).length := List.length_pos.mpr hws
  have hoc : overlapCount l l = (wordSet l).length := by
    rw [overlapCount]
    have : (wordSet l).filter (fun w => decide (w ∈ wordSet l)) = wordSet l :=
      List.filter_eq_self.mpr (fun w hw' => decide_eq_true hw')
    rw [this]
  have hj : (overlapCount l l : ℚ) /
      ((max (wordSet l).length (wordSet l).length : ℕ) : ℚ) = 1 := by
    rw [hoc, Nat.max_self]
    rw [div_self]
    exact_mod_cast hlen.ne'
  rw [hj, occursIn_self]
  simp only [Bool.true_or, if_pos]
  have h1 : (1 : ℚ) ≤ qmax 1
      (if 0 < (toBigrams l).length then
        (bigramOverlapCount l l : ℚ) /
          ((max (toBigrams l).length (toBigrams l).length : ℕ) : ℚ)
      else 0) + 3/10 := by
    have := le_qmax_left (1 : ℚ)
      (if 0 < (toBigrams l).length then
        (bigramOverlapCount l l : ℚ) /
          ((max (toBigrams l).length (toBigrams l).length : ℕ) : ℚ)
      else 0)
    linarith
  exact qmin_eq_left h1

/-- C5 counterexample: the claim asserts similarity(a, a) = 1 for every
non-empty string a, but the all-space string is non-empty and scores 0
against itself (its word list is empty after split and filter). -/
theorem similarity_self_space_ne_one :
    (" " : String) ≠ "" ∧ similarity " " " " = 0 ∧ similarity " " " " ≠ 1 := by
  have h0 : similarity " " " " = 0 := by
    rw [similarity, similarityL, if_neg (by decide), if_pos (by decide)]
  exact ⟨by decide, h0, by rw [h0]; norm_num⟩

/-- C5 amended: for all strings a and b (with no restriction at all),
0 ≤ similarity(a, b) ≤ 1; and similarity(a, a) = 1 whenever a contains
at least one character other than a space (rather than merely being
non-empty: an all-space string has no words and scores 0 against
itself). -/
theorem similarity_bounds (a b : String) :
    (0 ≤ similarity a b ∧ similarity a b ≤ 1) ∧
      ((∃ c ∈ a.data, c ≠ ' ') → similarity a a = 1) :=
  ⟨similarityL_nonneg_le_one a.data b.data, fun h => similarityL_self h⟩

/-- C5 witness: the unconditional bounds at an all-space left string
(the case the correction is about), and the conditioned self-similarity
at a concrete string with a non-space character. -/
theorem similarity_bounds_witness :
    (0 ≤ similarity " " "bye" ∧ similarity " " "bye" ≤ 1) ∧
      similarity "hello world" "hello world" = 1 :=
  ⟨(similarity_bounds " " "bye").1,
    (similarity_bounds "hello world" "hello world").2 ⟨'h', by decide, by decide⟩⟩

/-! ### timeToSeconds (C4) -/

/-- C4 counterexample: the claim asserts every malformed timestamp
parses to 0, but a three-part timestamp with non-numeric fields parses
to NaN (none), not 0: parseInt of a non-numeric hour is NaN and
propagates through the arithmetic. -/
theorem timeToSeconds_malformed_nan :
    timeToSeconds "aa:bb:cc" = none ∧ timeToSeconds "aa:bb:cc" ≠ some 0 := by
  constructor <;> decide

/-- C4 amended: timeToSeconds returns a value for every input string
(never throws); an input that does not split into exactly three
colon-separated fields never yields NaN — it degrades to the leading
number of the string, or to 0 when nothing parses — but a malformed
three-part timestamp yields NaN rather than 0. -/
theorem timeToSeconds_non_three_part_total (s : String)
    (h : (splitOnChar ':' (replaceFirstComma s.data)).length ≠ 3) :
    (timeToSeconds s).isSome ∧
      (jsParseFloat (replaceFirstComma s.data) = none → timeToSeconds s = some 0) := by
  rw [timeToSeconds]
  by_cases hs : s = ""
  · rw [if_pos hs]
    exact ⟨rfl, fun _ => rfl⟩
  · rw [if_neg hs]
    simp only [if_neg h]
    exact ⟨rfl, fun hf => by rw [hf]; rfl⟩

/-- C4 witness: the amended statement at a concrete malformed input
with no colons and no leading number. -/
theorem timeToSeconds_non_three_part_total_witness :
    (timeToSeconds "abc").isSome ∧ timeToSeconds "abc" = some 0 := by
  have h := timeToSeconds_non_three_part_total "abc" (by decide)
  exact ⟨h.1, h.2 (by decide)⟩

/-! ### Segment timing interpolation (C10, and the no-null half of C3) -/

lemma getD_mem {α} [Inhabited α] (l : List α) (j : ℕ) (h : j < l.length) :
    l.getD j default ∈ l := by
  rw [List.getD_eq_getElem l default h]
  exact List.getElem_mem h

lemma getD_eq_default_of_le {α} [Inhabited α] (l : List α) (j : ℕ)
    (h : l.length ≤ j) : l.getD j default = default := by
  rw [List.getD_eq_getD_get?, List.get?_eq_none.mpr h]
  rfl

lemma length_setTiming (ms : List SegMatch) (i : ℕ) (t : ℚ × ℚ) :
    (setTiming ms i t).length = ms.length := by
  rw [setTiming]
  simp

lemma length_segFillStep (ms : List SegMatch) (i : ℕ) :
    (segFillStep ms i).length = ms.length := by
  rw [segFillStep]
  split
  · rfl
  · split <;> apply length_setTiming

lemma getD_setTiming_self {ms : List SegMatch} {i : ℕ} (h : i < ms.length)
    (t : ℚ × ℚ) :
    (setTiming ms i t).getD i default = { ms.getD i default with timing := some t } := by
  rw [setTiming, List.getD_eq_getElem?_getD]
  simp [List.getElem?_set_self, h]

lemma getD_setTiming_ne {ms : List SegMatch} {i j : ℕ} (h : i ≠ j) (t : ℚ × ℚ) :
    (setTiming ms i t).getD j default = ms.getD j default := by
  rw [setTiming, List.getD_eq_getElem?_getD, List.getElem?_set_ne h,
    ← List.getD_eq_getElem?_getD]

lemma segFindNextAux_none :
    ∀ (fuel j : ℕ) (ms : List SegMatch),
      (∀ k, j ≤ k → ((ms.getD k default).timing) = none) →
      segFindNextAux ms j fuel = none := by
  intro fuel
  induction fuel with
  | zero => intro j ms _; rfl
  | succ n ih =>
    intro j ms h
    rw [segFindNextAux, if_neg (by rw [h j (le_refl j)]; simp)]
    exact ih (j + 1) ms (fun k hk => h k (by omega))

lemma segFindPrev_succ_some {ms : List SegMatch} {k : ℕ}
    (h : ((ms.getD k default).timing).isSome) : segFindPrev ms (k + 1) = some k := by
  rw [segFindPrev, if_pos h]

lemma segFill_no_match_invariant (ms : List SegMatch)
    (h : ∀ m ∈ ms, m.timing = none) :
    ∀ k, k ≤ ms.length →
      ((List.range k).foldl segFillStep ms).length = ms.length ∧
      (∀ j, j < k → (((List.range k).foldl segFillStep ms).getD j default).timing
          = some (6 * (j : ℚ), 6 * (j : ℚ) + 3)) ∧
      (∀ j, k ≤ j → ((List.range k).foldl segFillStep ms).getD j default
          = ms.getD j default) := by
  intro k
  induction k with
  | zero => exact fun _ => ⟨rfl, fun j hj => absurd hj (by omega), fun j _ => rfl⟩
  | succ k ih =>
    intro hk1
    have hk : k < ms.length := by omega
    obtain ⟨ihlen, ihlt, ihge⟩ := ih (by omega)
    set S := (List.range k).foldl segFillStep ms with hS
    have hfold : (List.range (k + 1)).foldl segFillStep ms = segFillStep S k := by
      rw [List.range_succ, List.foldl_append]
      rfl
    have hknone : ((S.getD k default).timing) = none := by
      rw [ihge k (le_refl k)]
      exact h (ms.getD k default) (getD_mem ms k hk)
    have hnone_ge : ∀ j, k + 1 ≤ j → ((S.getD j default).timing) = none := by
      intro j hj
      rw [ihge j (by omega)]
      by_cases hjl : j < ms.length
      · exact h (ms.getD j default) (getD_mem ms j hjl)
      · rw [getD_eq_default_of_le ms j (by omega)]
        rfl
    have hnext : segFindNext S k = none := by
      rw [segFindNext]
      exact segFindNextAux_none _ (k + 1) S hnone_ge
    have hstep : segFillStep S k =
        setTiming S k (6 * (k : ℚ), 6 * (k : ℚ) + 3) := by
      rw [segFillStep, if_neg (by rw [hknone]; simp)]
      cases k with
      | zero =>
        simp only [segFindPrev, hnext]
        norm_num
      | succ k' =>
        have hprev : segFindPrev S (k' + 1) = some k' := by
          apply segFindPrev_succ_some
          rw [ihlt k' (by omega)]
          rfl
        have hts : segTimingAt S k' =
            (6 * ((k' : ℕ) : ℚ), 6 * ((k' : ℕ) : ℚ) + 3) := by
          rw [segTimingAt, ihlt k' (by omega)]
          rfl
        rw [hprev, hnext]
        norm_num [hts]
        congr 1
        rw [Prod.mk.injEq]
        constructor <;> ring
    refine ⟨?_, ?_, ?_⟩
    · rw [hfold, length_segFillStep, ihlen]
    · intro j hj
      rw [hfold, hstep]
      rcases Nat.lt_succ_iff_lt_or_eq.mp hj with hjk | rfl
      · rw [getD_setTiming_ne (by omega), ihlt j hjk]
      · rw [getD_setTiming_self (by rw [ihlen]; exact hk)]
    · intro j hj
      rw [hfold, hstep, getD_setTiming_ne (by omega), ihge j (by omega)]

/-- C10 counterexample: with two segments and no matched timing, the
claim predicts ranges (0,3) and (3,6); the code assigns segment 1 the
range (6,9), because the loop's backward scan sees the just-filled
segment 0 and adds a 3-second gap on top of its end. -/
theorem interpolateSegmentTiming_not_contiguous :
    (((interpolateSegmentTiming
        [(⟨0, false, 0, none, none, none, []⟩ : SegMatch),
         (⟨1, false, 0, none, none, none, []⟩ : SegMatch)]).getD 1 default).timing
      = some (6, 9)) ∧
    (((interpolateSegmentTiming
        [(⟨0, false, 0, none, none, none, []⟩ : SegMatch),
         (⟨1, false, 0, none, none, none, []⟩ : SegMatch)]).getD 1 default).timing
      ≠ some (3, 6)) := by
  have hr : List.range 2 = [0, 1] := by decide
  have h : (interpolateSegmentTiming
      [(⟨0, false, 0, none, none, none, []⟩ : SegMatch),
       (⟨1, false, 0, none, none, none, []⟩ : SegMatch)]).getD 1 default =
      ⟨1, false, 0, none, none, some (6, 9), []⟩ := by
    rw [interpolateSegmentTiming]
    norm_num [hr, segFillStep, segFindPrev, segFindNext, segFindNextAux,
      setTiming, segTimingAt, List.getD]
  rw [h]
  norm_num

/-- C10 amended: if no segment has a matched time range, then after
interpolateSegmentTiming the segment at 0-based position i holds the
range startTime = 6i, endTime = 6i + 3 (3-second slots separated by
3-second gaps, because each unmatched segment extrapolates from its
just-filled predecessor), so the list is fully populated, ordered and
non-overlapping, but not the contiguous 3i..3(i+1) slots the claim
states. -/
theorem interpolateSegmentTiming_no_match (ms : List SegMatch)
    (h : ∀ m ∈ ms, m.timing = none) (i : ℕ) (hi : i < ms.length) :
    (((interpolateSegmentTiming ms).getD i default).timing)
      = some (6 * (i : ℚ), 6 * (i : ℚ) + 3) := by
  rw [interpolateSegmentTiming]
  exact (segFill_no_match_invariant ms h ms.length (le_refl _)).2.1 i hi

/-- C10 witness: the amended statement at two concrete unmatched
segments, position 1. -/
theorem interpolateSegmentTiming_no_match_witness :
    (((interpolateSegmentTiming
        [(⟨0, false, 0, none, none, none, []⟩ : SegMatch),
         (⟨2, false, 0, none, none, none, []⟩ : SegMatch)]).getD 1 default).timing)
      = some (6 * ((1 : ℕ) : ℚ), 6 * ((1 : ℕ) : ℚ) + 3) :=
  interpolateSegmentTiming_no_match _ (by simp) 1 (by simp)

lemma segFill_all_some_invariant (ms : List SegMatch) :
    ∀ k, k ≤ ms.length →
      ((List.range k).foldl segFillStep ms).length = ms.length ∧
      (∀ j, j < k → ((((List.range k).foldl segFillStep ms).getD j default).timing).isSome) ∧
      (∀ j, k ≤ j → ((List.range k).foldl segFillStep ms).getD j default
          = ms.getD j default) := by
  intro k
  induction k with
  | zero => exact fun _ => ⟨rfl, fun j hj => absurd hj (by omega), fun j _ => rfl⟩
  | succ k ih =>
    intro hk1
    have hk : k < ms.length := by omega
    obtain ⟨ihlen, ihlt, ihge⟩ := ih (by omega)
    set S := (List.range k).foldl segFillStep ms with hS
    have hfold : (List.range (k + 1)).foldl segFillStep ms = segFillStep S k := by
      rw [List.range_succ, List.foldl_append]
      rfl
    by_cases hsome : ((S.getD k default).timing).isSome
    · have hstep : segFillStep S k = S := by
        rw [segFillStep, if_pos hsome]
      refine ⟨by rw [hfold, hstep, ihlen], ?_, ?_⟩
      · intro j hj
        rw [hfold, hstep]
        rcases Nat.lt_succ_iff_lt_or_eq.mp hj with hjk | rfl
        · exact ihlt j hjk
        · exact hsome
      · intro j hj
        rw [hfold, hstep]
        exact ihge j (by omega)
    · have hkin : k < S.length := by rw [ihlen]; exact hk
      have hstep : ∃ t, segFillStep S k = setTiming S k t := by
        rw [segFillStep, if_neg hsome]
        rcases segFindPrev S k with _ | p <;> rcases segFindNext S k with _ | n
        · exact ⟨_, rfl⟩
        · exact ⟨_, rfl⟩
        · exact ⟨_, rfl⟩
        · exact ⟨_, rfl⟩
      obtain ⟨t, hstep⟩ := hstep
      refine ⟨by rw [hfold, hstep, length_setTiming, ihlen], ?_, ?_⟩
      · intro j hj
        rw [hfold, hstep]
        rcases Nat.lt_succ_iff_lt_or_eq.mp hj with hjk | rfl
        · rw [getD_setTiming_ne (by omega)]
          exact ihlt j hjk
        · rw [getD_setTiming_self hkin]
          rfl
      · intro j hj
        rw [hfold, hstep, getD_setTiming_ne (by omega)]
        exact ihge j (by omega)

lemma interpolateSegmentTiming_all_some (ms : List SegMatch) :
    ∀ i, i < ms.length →
      ((((interpolateSegmentTiming ms).getD i default).timing)).isSome := by
  intro i hi
  rw [interpolateSegmentTiming]
  exact (segFill_all_some_invariant ms ms.length (le_refl _)).2.1 i hi

/-! ### Beat interpolation: the no-anchor branch (C7) and lengths (C9) -/

lemma foldl_id_of_none {l : List BeatMatchEntry} (h : ∀ m ∈ l, m.cueIdx = none) :
    ∀ ts : List (Option ℚ),
      l.foldl (fun ts m => if m.cueIdx.isSome then ts.set m.beatIdx m.time else ts) ts
        = ts := by
  induction l with
  | nil => intro ts; rfl
  | cons m r ih =>
    intro ts
    rw [List.foldl_cons, if_neg (by rw [h m (by simp)]; simp)]
    exact ih (fun x hx => h x (by simp [hx])) ts

lemma initialTimes_no_match {mapping : List BeatMatchEntry}
    (h : ∀ m ∈ mapping, m.cueIdx = none) :
    initialTimes mapping = List.replicate mapping.length none := by
  rw [initialTimes]
  exact foldl_id_of_none h _

lemma replicate_none_any (n : ℕ) :
    (List.replicate n (none : Option ℚ)).any Option.isSome = false := by
  induction n with
  | zero => rfl
  | succ k ih => simp [List.replicate_succ, ih]

/-- C7: when no beat has a matched anchor at all, interpolateMissing
distributes all N beat times evenly between floorTime and ceilTime (the
provided segment bounds, else the first cue start and last cue end, else
0 and N*2 seconds as floorTimeOf/ceilTimeOf state), a single beat going
to the midpoint, all rounded to milliseconds; in particular four beats
with bounds 10 and 18 give times 10, 12.667, 15.333, 18. -/
theorem interpolateMissing_no_anchor (mapping : List BeatMatchEntry)
    (cues : List Cue) (segStart segEnd : Option ℚ)
    (h : ∀ m ∈ mapping, m.cueIdx = none) :
    interpolateMissing mapping cues segStart segEnd =
      (List.range mapping.length).map (fun (i : ℕ) =>
        round3 (if mapping.length = 1
          then (floorTimeOf cues segStart + ceilTimeOf cues mapping.length segEnd) / 2
          else floorTimeOf cues segStart +
            ((i : ℚ) / ((mapping.length : ℚ) - 1)) *
              (ceilTimeOf cues mapping.length segEnd - floorTimeOf cues segStart))) := by
  rw [interpolateMissing, interpolateMissingCore, initialTimes_no_match h]
  simp only [List.length_replicate, replicate_none_any, Bool.false_eq_true, if_false,
    noAnchorTimes, List.map_map]
  rfl

/-- C7 witness: four unmatched beats, bounds 10 and 18, give exactly the
times 10, 12.667, 15.333, 18 of the claim. -/
theorem interpolateMissing_no_anchor_witness :
    interpolateMissing
      [mkUnmatched 0 "a" none, mkUnmatched 1 "b" none,
       mkUnmatched 2 "c" none, mkUnmatched 3 "d" none]
      [] (some 10) (some 18) = [10, 12667/1000, 15333/1000, 18] := by
  rw [interpolateMissing_no_anchor _ _ _ _ (by decide)]
  have hr : List.range
      ([mkUnmatched 0 "a" none, mkUnmatched 1 "b" none,
        mkUnmatched 2 "c" none, mkUnmatched 3 "d" none] : List BeatMatchEntry).length
      = [0, 1, 2, 3] := by decide
  rw [hr]
  norm_num [floorTimeOf, ceilTimeOf, round3, jsRound]

lemma alignFrom_length (cues : List Cue) (cts : List (List Char))
    (bty : Option (List String)) :
    ∀ (beats : List String) (ss i : ℕ),
      (alignFrom cues cts bty ss i beats).length = beats.length := by
  intro beats
  induction beats with
  | nil => intro ss i; rfl
  | cons bt rest ih =>
    intro ss i
    simp only [alignFrom]
    split
    · simp [ih]
    · split
      · simp [ih]
      · split
        · split
          · simp [ih]
          · simp [ih]
        · simp [ih]

lemma initialTimes_length (mapping : List BeatMatchEntry) :
    (initialTimes mapping).length = mapping.length := by
  rw [initialTimes]
  have haux : ∀ (l : List BeatMatchEntry) (ts : List (Option ℚ)),
      (l.foldl (fun ts m => if m.cueIdx.isSome then ts.set m.beatIdx m.time else ts) ts).length
        = ts.length := by
    intro l
    induction l with
    | nil => intro ts; rfl
    | cons m r ih =>
      intro ts
      rw [List.foldl_cons]
      rw [ih]
      split <;> simp
  rw [haux, List.length_replicate]

lemma fillStep_length (f c : ℚ) (ts : List (Option ℚ)) (i : ℕ) :
    (fillStep f c ts i).length = ts.length := by
  rw [fillStep]
  split
  · rfl
  · rcases findPrev ts i with _ | p <;> rcases findNext ts i with _ | n <;> simp

lemma fillLoop_length (f c : ℚ) :
    ∀ (idxs : List ℕ) (ts : List (Option ℚ)),
      (fillLoop f c ts idxs).length = ts.length := by
  intro idxs
  induction idxs with
  | nil => intro ts; rfl
  | cons i rest ih =>
    intro ts
    rw [fillLoop, ih, fillStep_length]

lemma interpolateMissing_length (mapping : List BeatMatchEntry) (cues : List Cue)
    (segStart segEnd : Option ℚ) :
    (interpolateMissing mapping cues segStart segEnd).length = mapping.length := by
  rw [interpolateMissing, List.length_map, interpolateMissingCore]
  split
  · rw [fillLoop_length, initialTimes_length]
  · have hn : ∀ (n : ℕ) (f c : ℚ), (noAnchorTimes n f c).length = n := by
      intro n f c
      rw [noAnchorTimes, List.length_map, List.length_range]
    rw [List.length_map, hn, initialTimes_length]

/-- C9 counterexample: for the empty beat list the function does not
return a mapping list of length 0 with a matching beatTimes array; it
falls back to the dumb mapping, with mapping null and beatTimes the cue
start times (here length 1, not 0). -/
theorem mapSrtToBeatsIntelligent_empty_fallback :
    (mapSrtToBeatsIntelligentCues [⟨1, 0, 1, "hi"⟩] [] none none none).mapping = none ∧
    (mapSrtToBeatsIntelligentCues [⟨1, 0, 1, "hi"⟩] [] none none none).beatTimes.length = 1 ∧
    (1 : ℕ) ≠ ([] : List String).length := by
  exact ⟨rfl, rfl, by decide⟩

/-- C9 amended: for every cue list and every non-empty ordered beat
list, mapSrtToBeatsIntelligent returns a mapping list whose length
equals the number of beats and a beatTimes array of that same length;
for the empty (or missing) beat list it instead falls back to the 1:1
mapping with mapping null and one time per cue. -/
theorem mapSrtToBeatsIntelligent_lengths (cues : List Cue) (beats : List String)
    (bty : Option (List String)) (segStart segEnd : Option ℚ)
    (h : beats ≠ []) :
    ∃ mp, (mapSrtToBeatsIntelligentCues cues beats bty segStart segEnd).mapping = some mp ∧
      mp.length = beats.length ∧
      (mapSrtToBeatsIntelligentCues cues beats bty segStart segEnd).beatTimes.length
        = beats.length := by
  rw [mapSrtToBeatsIntelligentCues]
  rw [if_neg h]
  refine ⟨_, rfl, alignFrom_length _ _ _ _ _ _, ?_⟩
  rw [interpolateMissing_length, alignFrom_length]

/-- C9 witness: the amended statement at one beat and no cues. -/
theorem mapSrtToBeatsIntelligent_lengths_witness :
    ∃ mp, (mapSrtToBeatsIntelligentCues [] ["a"] none none none).mapping = some mp ∧
      mp.length = 1 ∧
      (mapSrtToBeatsIntelligentCues [] ["a"] none none none).beatTimes.length = 1 :=
  mapSrtToBeatsIntelligent_lengths [] ["a"] none none none (by decide)

/-! ### The forward-only beat aligner (C1, C6) -/

lemma foldl_pres {α β : Type} (step : β → α → β) (P : β → Prop) :
    ∀ (l : List α) (init : β), P init →
      (∀ acc a, a ∈ l → P acc → P (step acc a)) → P (l.foldl step init) := by
  intro l
  induction l with
  | nil => intro init h _; exact h
  | cons a r ih =>
    intro init h hstep
    exact ih (step init a) (hstep init a (by simp) h)
      (fun acc x hx hacc => hstep acc x (by simp [hx]) hacc)

lemma bestCandidate_some_range {cts : List (List Char)} {bt : List Char}
    {ss b : ℕ} (h : (bestCandidate cts bt ss).1 = some b) :
    ss ≤ b ∧ b < cts.length := by
  have hinv := foldl_pres
    (fun (acc : Option ℕ × ℚ) c =>
      let s := candScore cts bt c
      if acc.2 < s then (some c, s) else acc)
    (fun acc => ∀ b', acc.1 = some b' → ss ≤ b' ∧ b' < cts.length)
    (List.range' ss (cts.length - ss)) (none, 0) (by simp)
    (by
      intro acc a ha hacc b' hb'
      simp only at hb'
      split at hb'
      · simp only [Option.some.injEq] at hb'
        subst hb'
        have := List.mem_range'_1.mp ha
        omega
      · exact hacc b' hb')
  exact hinv b (by rw [← bestCandidate]; exact h)

lemma bestCandidate_none_zero {cts : List (List Char)} {bt : List Char} {ss : ℕ}
    (h : (bestCandidate cts bt ss).1 = none) : (bestCandidate cts bt ss).2 = 0 := by
  have hinv := foldl_pres
    (fun (acc : Option ℕ × ℚ) c =>
      let s := candScore cts bt c
      if acc.2 < s then (some c, s) else acc)
    (fun acc => acc.1 = none → acc.2 = 0)
    (List.range' ss (cts.length - ss)) (none, 0) (by simp)
    (by
      intro acc a _ hacc hnone
      simp only at hnone ⊢
      by_cases hlt : acc.2 < candScore cts bt a
      · rw [if_pos hlt] at hnone
        cases hnone
      · rw [if_neg hlt] at hnone ⊢
        exact hacc hnone)
  exact hinv (by rw [← bestCandidate]; exact h)

lemma beatThreshold_pos (bty : Option String) : 0 < beatThreshold bty := by
  rw [beatThreshold]
  split <;> norm_num

/-- Every step of the aligner prepends one entry and either keeps
searchStart (unmatched) or advances it past the matched cue. -/
lemma alignFrom_cons_shape (cues : List Cue) (cts : List (List Char))
    (bty : Option (List String)) (ss i : ℕ) (bt : String) (rest : List String) :
    ∃ e ss', alignFrom cues cts bty ss i (bt :: rest)
        = e :: alignFrom cues cts bty ss' (i + 1) rest ∧
      ((e.cueIdx = none ∧ ss' = ss) ∨
       (∃ b, e.cueIdx = some b ∧ ss ≤ b ∧ b < cts.length ∧ ss' = b + 1)) := by
  simp only [alignFrom]
  split
  · exact ⟨_, ss, rfl, Or.inl ⟨rfl, rfl⟩⟩
  · split
    · exact ⟨_, ss, rfl, Or.inl ⟨rfl, rfl⟩⟩
    · split
      · next b hbc =>
          split
          · refine ⟨_, b + 1, rfl, Or.inr ⟨b, rfl, ?_, ?_, rfl⟩⟩
            · exact (bestCandidate_some_range hbc).1
            · exact (bestCandidate_some_range hbc).2
          · exact ⟨_, ss, rfl, Or.inl ⟨rfl, rfl⟩⟩
      · exact ⟨_, ss, rfl, Or.inl ⟨rfl, rfl⟩⟩

lemma alignFrom_matched_ge (cues : List Cue) (cts : List (List Char))
    (bty : Option (List String)) :
    ∀ (beats : List String) (ss i : ℕ) (e : BeatMatchEntry) (b : ℕ),
      e ∈ alignFrom cues cts bty ss i beats → e.cueIdx = some b → ss ≤ b := by
  intro beats
  induction beats with
  | nil => intro ss i e b he _; simp [alignFrom] at he
  | cons bt rest ih =>
    intro ss i e b he hb
    obtain ⟨e0, ss', heq, hcase⟩ := alignFrom_cons_shape cues cts bty ss i bt rest
    rw [heq] at he
    rcases List.mem_cons.mp he with rfl | hm
    · rcases hcase with ⟨hnone, _⟩ | ⟨b0, hsome, hle, _, _⟩
      · rw [hnone] at hb; cases hb
      · rw [hsome] at hb
        injection hb with hb'
        omega
    · have hss' : ss ≤ ss' := by
        rcases hcase with ⟨_, rfl⟩ | ⟨b0, _, hle, _, rfl⟩
        · exact le_refl _
        · omega
      exact le_trans hss' (ih ss' (i + 1) e b hm hb)

lemma alignFrom_mono (cues : List Cue) (cts : List (List Char))
    (bty : Option (List String)) :
    ∀ (beats : List String) (ss i0 j k : ℕ) (ej ek : BeatMatchEntry) (bj bk : ℕ),
      j < k →
      (alignFrom cues cts bty ss i0 beats).get? j = some ej → ej.cueIdx = some bj →
      (alignFrom cues cts bty ss i0 beats).get? k = some ek → ek.cueIdx = some bk →
      bj < bk := by
  intro beats
  induction beats with
  | nil =>
    intro ss i0 j k ej ek bj bk _ hj _ _ _
    simp [alignFrom] at hj
  | cons bt rest ih =>
    intro ss i0 j k ej ek bj bk hjk hj hcj hk hck
    obtain ⟨e0, ss', heq, hcase⟩ := alignFrom_cons_shape cues cts bty ss i0 bt rest
    rw [heq] at hj hk
    rcases k with _ | k'
    · omega
    rw [List.get?_cons_succ] at hk
    rcases j with _ | j'
    · rw [List.get?_cons_zero] at hj
      injection hj with hj'
      subst hj'
      rcases hcase with ⟨hnone, _⟩ | ⟨b0, hsome, _, _, rfl⟩
      · rw [hnone] at hcj; cases hcj
      · rw [hsome] at hcj
        injection hcj with hcj'
        have hge := alignFrom_matched_ge cues cts bty rest (b0 + 1) (i0 + 1) ek bk
          (List.get?_mem hk) hck
        omega
    · rw [List.get?_cons_succ] at hj
      exact ih ss' (i0 + 1) j' k' ej ek bj bk (by omega) hj hcj hk hck

/-- C1: in the mapping produced by mapSrtToBeatsIntelligent, matched cue
indices are strictly increasing in beat order: a later beat's matched
cue index is always strictly greater than an earlier beat's, because an
accepted match moves searchStart past the matched cue and every later
search starts there. -/
theorem mapSrtToBeatsIntelligent_monotone (cues : List Cue) (beats : List String)
    (bty : Option (List String)) (segStart segEnd : Option ℚ)
    (mp : List BeatMatchEntry) (i j : ℕ) (ei ej : BeatMatchEntry) (ci cj : ℕ)
    (hmp : (mapSrtToBeatsIntelligentCues cues beats bty segStart segEnd).mapping = some mp)
    (hij : i < j)
    (hi : mp.get? i = some ei) (hci : ei.cueIdx = some ci)
    (hj : mp.get? j = some ej) (hcj : ej.cueIdx = some cj) :
    ci < cj := by
  rw [mapSrtToBeatsIntelligentCues] at hmp
  split at hmp
  · cases hmp
  · simp only [Option.some.injEq] at hmp
    subst hmp
    exact alignFrom_mono cues _ bty beats 0 0 i j ei ej ci cj hij hi hci hj hcj

/-! ### Concrete aligner evaluations for the witnesses -/

lemma simVal_abc_abc : similarityL ['a', 'b', 'c'] ['a', 'b', 'c'] = 1 :=
  similarityL_self ⟨'a', by decide, by decide⟩

lemma simVal_xyz_xyz : similarityL ['x', 'y', 'z'] ['x', 'y', 'z'] = 1 :=
  similarityL_self ⟨'x', by decide, by decide⟩

lemma simVal_abc_xyz : similarityL ['a', 'b', 'c'] ['x', 'y', 'z'] = 0 := by
  rw [similarityL, if_neg (by decide), if_neg (by decide)]
  rw [(by decide : overlapCount ['a', 'b', 'c'] ['x', 'y', 'z'] = 0),
    (by decide : (wordSet ['a', 'b', 'c']).length = 1),
    (by decide : (wordSet ['x', 'y', 'z']).length = 1),
    (by decide : (occursIn ['x', 'y', 'z'] ['a', 'b', 'c'] ||
      occursIn ['a', 'b', 'c'] ['x', 'y', 'z']) = false),
    (by decide : (toBigrams ['a', 'b', 'c']).length = 2),
    (by decide : (toBigrams ['x', 'y', 'z']).length = 2),
    (by decide : bigramOverlapCount ['a', 'b', 'c'] ['x', 'y', 'z'] = 0)]
  norm_num [qmin, qmax]

lemma simVal_abc_comb :
    similarityL ['a', 'b', 'c'] ['a', 'b', 'c', ' ', 'x', 'y', 'z'] = 4/5 := by
  rw [similarityL, if_neg (by decide), if_neg (by decide)]
  rw [(by decide : overlapCount ['a', 'b', 'c'] ['a', 'b', 'c', ' ', 'x', 'y', 'z'] = 1),
    (by decide : (wordSet ['a', 'b', 'c']).length = 1),
    (by decide : (wordSet ['a', 'b', 'c', ' ', 'x', 'y', 'z']).length = 2),
    (by decide : (occursIn ['a', 'b', 'c', ' ', 'x', 'y', 'z'] ['a', 'b', 'c'] ||
      occursIn ['a', 'b', 'c'] ['a', 'b', 'c', ' ', 'x', 'y', 'z']) = true),
    (by decide : (toBigrams ['a', 'b', 'c']).length = 2),
    (by decide : (toBigrams ['a', 'b', 'c', ' ', 'x', 'y', 'z']).length = 6),
    (by decide : bigramOverlapCount ['a', 'b', 'c'] ['a', 'b', 'c', ' ', 'x', 'y', 'z'] = 2)]
  norm_num [qmin, qmax]

lemma simFloorVal_abc_abc : simFloor ['a', 'b', 'c'] ['a', 'b', 'c'] = 1 := by
  simp only [simFloor]
  rw [if_pos (by decide), simVal_abc_abc]
  norm_num [qmax]

lemma simFloorVal_xyz_xyz : simFloor ['x', 'y', 'z'] ['x', 'y', 'z'] = 1 := by
  simp only [simFloor]
  rw [if_pos (by decide), simVal_xyz_xyz]
  norm_num [qmax]

lemma simFloorVal_abc_xyz : simFloor ['a', 'b', 'c'] ['x', 'y', 'z'] = 0 := by
  simp only [simFloor]
  rw [if_neg (by decide), simVal_abc_xyz]

lemma simFloorVal_abc_comb :
    simFloor ['a', 'b', 'c'] ['a', 'b', 'c', ' ', 'x', 'y', 'z'] = 4/5 := by
  simp only [simFloor]
  rw [if_pos (by decide), simVal_abc_comb]
  norm_num [qmax]

lemma candScoreVal_abc_0 :
    candScore [['a', 'b', 'c'], ['x', 'y', 'z']] ['a', 'b', 'c'] 0 = 1 := by
  simp only [candScore, List.length_cons, List.length_nil]
  norm_num [simFloorVal_abc_abc, simFloorVal_abc_comb, qmax]

lemma candScoreVal_abc_1 :
    candScore [['a', 'b', 'c'], ['x', 'y', 'z']] ['a', 'b', 'c'] 1 = 0 := by
  simp only [candScore, List.length_cons, List.length_nil]
  norm_num [simFloorVal_abc_xyz]

lemma candScoreVal_xyz_1 :
    candScore [['a', 'b', 'c'], ['x', 'y', 'z']] ['x', 'y', 'z'] 1 = 1 := by
  simp only [candScore, List.length_cons, List.length_nil]
  norm_num [simFloorVal_xyz_xyz]

lemma bestCandidateVal_abc :
    bestCandidate [['a', 'b', 'c'], ['x', 'y', 'z']] ['a', 'b', 'c'] 0 = (some 0, 1) := by
  rw [bestCandidate]
  rw [(by decide : List.range' 0
    (([['a', 'b', 'c'], ['x', 'y', 'z']] : List (List Char)).length - 0) = [0, 1])]
  simp only [List.foldl_cons, List.foldl_nil]
  norm_num [candScoreVal_abc_0, candScoreVal_abc_1]

lemma bestCandidateVal_xyz :
    bestCandidate [['a', 'b', 'c'], ['x', 'y', 'z']] ['x', 'y', 'z'] 1 = (some 1, 1) := by
  rw [bestCandidate]
  rw [(by decide : List.range' 1
    (([['a', 'b', 'c'], ['x', 'y', 'z']] : List (List Char)).length - 1) = [1])]
  simp only [List.foldl_cons, List.foldl_nil]
  norm_num [candScoreVal_xyz_1]

lemma simVal_xyz_abc : similarityL ['x', 'y', 'z'] ['a', 'b', 'c'] = 0 := by
  rw [similarityL, if_neg (by decide), if_neg (by decide)]
  rw [(by decide : overlapCount ['x', 'y', 'z'] ['a', 'b', 'c'] = 0),
    (by decide : (wordSet ['x', 'y', 'z']).length = 1),
    (by decide : (wordSet ['a', 'b', 'c']).length = 1),
    (by decide : (occursIn ['a', 'b', 'c'] ['x', 'y', 'z'] ||
      occursIn ['x', 'y', 'z'] ['a', 'b', 'c']) = false),
    (by decide : (toBigrams ['x', 'y', 'z']).length = 2),
    (by decide : (toBigrams ['a', 'b', 'c']).length = 2),
    (by decide : bigramOverlapCount ['x', 'y', 'z'] ['a', 'b', 'c'] = 0)]
  norm_num [qmin, qmax]

lemma simVal_xyz_comb :
    similarityL ['x', 'y', 'z'] ['a', 'b', 'c', ' ', 'x', 'y', 'z'] = 4/5 := by
  rw [similarityL, if_neg (by decide), if_neg (by decide)]
  rw [(by decide : overlapCount ['x', 'y', 'z'] ['a', 'b', 'c', ' ', 'x', 'y', 'z'] = 1),
    (by decide : (wordSet ['x', 'y', 'z']).length = 1),
    (by decide : (wordSet ['a', 'b', 'c', ' ', 'x', 'y', 'z']).length = 2),
    (by decide : (occursIn ['a', 'b', 'c', ' ', 'x', 'y', 'z'] ['x', 'y', 'z'] ||
      occursIn ['x', 'y', 'z'] ['a', 'b', 'c', ' ', 'x', 'y', 'z']) = true),
    (by decide : (toBigrams ['x', 'y', 'z']).length = 2),
    (by decide : (toBigrams ['a', 'b', 'c', ' ', 'x', 'y', 'z']).length = 6),
    (by decide : bigramOverlapCount ['x', 'y', 'z'] ['a', 'b', 'c', ' ', 'x', 'y', 'z'] = 2)]
  norm_num [qmin, qmax]

lemma simFloorVal_xyz_abc : simFloor ['x', 'y', 'z'] ['a', 'b', 'c'] = 0 := by
  simp only [simFloor]
  rw [if_neg (by decide), simVal_xyz_abc]

lemma simFloorVal_xyz_comb :
    simFloor ['x', 'y', 'z'] ['a', 'b', 'c', ' ', 'x', 'y', 'z'] = 4/5 := by
  simp only [simFloor]
  rw [if_pos (by decide), simVal_xyz_comb]
  norm_num [qmax]

lemma candScoreVal_xyz_0 :
    candScore [['a', 'b', 'c'], ['x', 'y', 'z']] ['x', 'y', 'z'] 0 = 4/5 := by
  simp only [candScore, List.length_cons, List.length_nil]
  norm_num [simFloorVal_xyz_abc, simFloorVal_xyz_comb, qmax]

lemma bestCandidateVal_xyz0 :
    bestCandidate [['a', 'b', 'c'], ['x', 'y', 'z']] ['x', 'y', 'z'] 0 = (some 1, 1) := by
  rw [bestCandidate]
  rw [(by decide : List.range' 0
    (([['a', 'b', 'c'], ['x', 'y', 'z']] : List (List Char)).length - 0) = [0, 1])]
  simp only [List.foldl_cons, List.foldl_nil]
  norm_num [candScoreVal_xyz_0, candScoreVal_xyz_1]

lemma jsRoundVal_100 : jsRound ((1 : ℚ) * 100) = 100 := by norm_num [jsRound]

lemma alignFromVal :
    alignFrom [⟨1, 0, 2, "abc"⟩, ⟨2, 3, 5, "xyz"⟩]
      [['a', 'b', 'c'], ['x', 'y', 'z']] none 0 0 ["abc", "xyz"]
      = [⟨0, some 0, some 1, 100, "abc", some "abc", some 0, none⟩,
         ⟨1, some 1, some 2, 100, "xyz", some "xyz", some 3, none⟩] := by
  have hn1 : normalizeL "abc".data = ['a', 'b', 'c'] := by decide
  have hn2 : normalizeL "xyz".data = ['x', 'y', 'z'] := by decide
  have hc1 : ¬((none : Option String) = some "silent" ∨
      (none : Option String) = some "data") := by decide
  have hc2 : ¬((['a', 'b', 'c'] : List Char) = []) := by decide
  have hc3 : ¬((['x', 'y', 'z'] : List Char) = []) := by decide
  have hc4 : (if (none : Option String) = some "label" then (2 : ℚ)/25 else 3/20) ≤ 1 := by
    rw [if_neg (by decide)]
    norm_num
  have hj : jsRound (100 : ℚ) = 100 := by norm_num [jsRound]
  have hthr : beatThreshold none ≤ 1 := by
    rw [beatThreshold, if_neg (by decide)]
    norm_num
  simp only [alignFrom, Option.none_bind, hn1, hn2]
  norm_num [hc1, hc2, hc3, hc4, hj, bestCandidateVal_abc, bestCandidateVal_xyz,
    bestCandidateVal_xyz0, List.getD, hthr]

/-- C1 witness: a concrete run with two matched beats, whose matched cue
indices 0 and 1 are strictly increasing. -/
theorem mapSrtToBeatsIntelligent_monotone_witness :
    ∃ mp, (mapSrtToBeatsIntelligentCues
        [⟨1, 0, 2, "abc"⟩, ⟨2, 3, 5, "xyz"⟩] ["abc", "xyz"] none none none).mapping
      = some mp ∧
    ∃ e0 e1, mp.get? 0 = some e0 ∧ e0.cueIdx = some 0 ∧
      mp.get? 1 = some e1 ∧ e1.cueIdx = some 1 ∧ (0 : ℕ) < 1 := by
  have hct : ([⟨1, 0, 2, "abc"⟩, ⟨2, 3, 5, "xyz"⟩] : List Cue).map
      (fun cu => normalizeL cu.text.data) = [['a', 'b', 'c'], ['x', 'y', 'z']] := by decide
  have hmp : (mapSrtToBeatsIntelligentCues
      [⟨1, 0, 2, "abc"⟩, ⟨2, 3, 5, "xyz"⟩] ["abc", "xyz"] none none none).mapping
      = some [⟨0, some 0, some 1, 100, "abc", some "abc", some 0, none⟩,
              ⟨1, some 1, some 2, 100, "xyz", some "xyz", some 3, none⟩] := by
    rw [mapSrtToBeatsIntelligentCues, if_neg (by decide)]
    show some (alignFrom [⟨1, 0, 2, "abc"⟩, ⟨2, 3, 5, "xyz"⟩]
      (([⟨1, 0, 2, "abc"⟩, ⟨2, 3, 5, "xyz"⟩] : List Cue).map
        (fun cu => normalizeL cu.text.data)) none 0 0 ["abc", "xyz"]) = _
    rw [hct, alignFromVal]
  refine ⟨_, hmp, _, _, rfl, rfl, rfl, rfl, ?_⟩
  exact mapSrtToBeatsIntelligent_monotone
    [⟨1, 0, 2, "abc"⟩, ⟨2, 3, 5, "xyz"⟩] ["abc", "xyz"] none none none
    _ 0 1 _ _ 0 1 hmp (by norm_num) rfl rfl rfl rfl

/-- C6: for a beat that is neither silent nor data and whose normalized
text is non-empty, the produced entry has a non-null cueIdx exactly when
the best candidate score from the current searchStart reaches the
adaptive threshold (0.08 for label beats, 0.15 otherwise); below the
threshold the beat is recorded unmatched with cueIdx null. -/
theorem alignFrom_threshold (cues : List Cue) (cts : List (List Char))
    (bty : Option (List String)) (ss i : ℕ) (bt : String) (rest : List String)
    (hty : ¬((bty.bind fun l => l.get? i) = some "silent" ∨
      (bty.bind fun l => l.get? i) = some "data"))
    (hnb : normalizeL bt.data ≠ []) :
    ∀ e, (alignFrom cues cts bty ss i (bt :: rest)).head? = some e →
      (e.cueIdx.isSome ↔ beatThreshold (bty.bind fun l => l.get? i) ≤
          (bestCandidate cts (normalizeL bt.data) ss).2) ∧
      (¬ beatThreshold (bty.bind fun l => l.get? i) ≤
          (bestCandidate cts (normalizeL bt.data) ss).2 → e.cueIdx = none) := by
  intro e he
  simp only [alignFrom] at he
  rw [if_neg hty, if_neg hnb] at he
  rcases hbc : (bestCandidate cts (normalizeL bt.data) ss).1 with _ | b
  · rw [hbc] at he
    simp only [List.head?_cons, Option.some.injEq] at he
    subst he
    have hz := bestCandidate_none_zero hbc
    have hpos := beatThreshold_pos (bty.bind fun l => l.get? i)
    constructor
    · rw [hz]
      simp only [mkUnmatched, Option.isSome_none, Bool.false_eq_true, false_iff]
      exact fun hle => absurd (lt_of_lt_of_le hpos hle) (lt_irrefl 0)
    · intro _
      rfl
  · simp only [hbc] at he
    by_cases hth : beatThreshold (bty.bind fun l => l.get? i) ≤
        (bestCandidate cts (normalizeL bt.data) ss).2
    · rw [if_pos hth] at he
      simp only [List.head?_cons, Option.some.injEq] at he
      subst he
      exact ⟨Iff.intro (fun _ => hth) (fun _ => rfl), fun hc => absurd hth hc⟩
    · rw [if_neg hth] at he
      simp only [List.head?_cons, Option.some.injEq] at he
      subst he
      exact ⟨Iff.intro (fun h => absurd h (by simp [mkUnmatched]))
        (fun h => absurd h hth), fun _ => rfl⟩

lemma candScoreVal_abc_single : candScore [['a', 'b', 'c']] ['a', 'b', 'c'] 0 = 1 := by
  simp only [candScore, List.length_cons, List.length_nil]
  norm_num [simFloorVal_abc_abc]

lemma bestCandidateVal_abc_single :
    bestCandidate [['a', 'b', 'c']] ['a', 'b', 'c'] 0 = (some 0, 1) := by
  rw [bestCandidate]
  rw [(by decide : List.range' 0
    (([['a', 'b', 'c']] : List (List Char)).length - 0) = [0])]
  simp only [List.foldl_cons, List.foldl_nil]
  norm_num [candScoreVal_abc_single]

/-- C6 witness: at a concrete one-cue input whose best score 1 meets the
0.15 threshold, the produced head entry is matched, and the equivalence
of the theorem holds there. -/
theorem alignFrom_threshold_witness :
    ((⟨0, some 0, some 1, 100, "abc", some "abc", some 0, none⟩ :
        BeatMatchEntry).cueIdx.isSome ↔
      beatThreshold none ≤
        (bestCandidate [['a', 'b', 'c']] (normalizeL "abc".data) 0).2) := by
  have hn1 : normalizeL "abc".data = ['a', 'b', 'c'] := by decide
  have hhead : (alignFrom [⟨1, 0, 2, "abc"⟩] [['a', 'b', 'c']] none 0 0 ["abc"]).head?
      = some ⟨0, some 0, some 1, 100, "abc", some "abc", some 0, none⟩ := by
    have hj : jsRound (100 : ℚ) = 100 := by norm_num [jsRound]
    have hthr : beatThreshold none ≤ 1 := by
      rw [beatThreshold, if_neg (by decide)]
      norm_num
    simp only [alignFrom, Option.none_bind, hn1]
    norm_num [(by decide : ¬((none : Option String) = some "silent" ∨
        (none : Option String) = some "data")),
      (by decide : ¬((['a', 'b', 'c'] : List Char) = [])),
      hj, bestCandidateVal_abc_single, List.getD, hthr]
  exact (alignFrom_threshold [⟨1, 0, 2, "abc"⟩] [['a', 'b', 'c']] none 0 0 "abc" []
    (by decide) (by decide) _ hhead).1

/-! ### Beat interpolation: completeness and monotonicity (C3) -/

lemma tget_set_self {ts : List (Option ℚ)} {i : ℕ} (h : i < ts.length)
    (v : Option ℚ) : tget (ts.set i v) i = v := by
  rw [tget, List.getD_eq_getElem?_getD]
  simp [List.getElem?_set_self, h]

lemma tget_set_ne {ts : List (Option ℚ)} {i j : ℕ} (h : i ≠ j) (v : Option ℚ) :
    tget (ts.set i v) j = tget ts j := by
  rw [tget, List.getD_eq_getElem?_getD, List.getElem?_set_ne h,
    ← List.getD_eq_getElem?_getD, tget]

lemma tget_ge_length {ts : List (Option ℚ)} {j : ℕ} (h : ts.length ≤ j) :
    tget ts j = none := by
  rw [tget, List.getD_eq_getElem?_getD, List.getElem?_eq_none h]
  rfl

lemma fillLoop_eq_foldl (f c : ℚ) :
    ∀ (idxs : List ℕ) (ts : List (Option ℚ)),
      fillLoop f c ts idxs = idxs.foldl (fillStep f c) ts := by
  intro idxs
  induction idxs with
  | nil => intro ts; rfl
  | cons i rest ih => intro ts; rw [fillLoop, ih, List.foldl_cons]

lemma findPrev_succ_some {ts : List (Option ℚ)} {k : ℕ}
    (h : (tget ts k).isSome) : findPrev ts (k + 1) = some k := by
  rw [findPrev, if_pos h]

lemma findNextAux_some_spec :
    ∀ (fuel j n : ℕ) (ts : List (Option ℚ)),
      findNextAux ts j fuel = some n →
      j ≤ n ∧ n < j + fuel ∧ (tget ts n).isSome ∧
        (∀ m, j ≤ m → m < n → tget ts m = none) := by
  intro fuel
  induction fuel with
  | zero => intro j n ts h; cases h
  | succ fu ih =>
    intro j n ts h
    rw [findNextAux] at h
    by_cases hj : (tget ts j).isSome
    · rw [if_pos hj] at h
      injection h with h
      subst h
      exact ⟨le_refl j, by omega, hj, fun m h1 h2 => absurd (lt_of_le_of_lt h1 h2) (lt_irrefl j)⟩
    · rw [if_neg hj] at h
      obtain ⟨h1, h2, h3, h4⟩ := ih (j + 1) n ts h
      refine ⟨by omega, by omega, h3, ?_⟩
      intro m hm1 hm2
      rcases Nat.eq_or_lt_of_le hm1 with rfl | hm
      · exact Option.not_isSome_iff_eq_none.mp hj
      · exact h4 m hm hm2

lemma findNextAux_none_spec :
    ∀ (fuel j : ℕ) (ts : List (Option ℚ)),
      findNextAux ts j fuel = none →
      ∀ m, j ≤ m → m < j + fuel → tget ts m = none := by
  intro fuel
  induction fuel with
  | zero => intro j ts _ m h1 h2; omega
  | succ fu ih =>
    intro j ts h m h1 h2
    rw [findNextAux] at h
    by_cases hj : (tget ts j).isSome
    · rw [if_pos hj] at h; cases h
    · rw [if_neg hj] at h
      rcases Nat.eq_or_lt_of_le h1 with rfl | hm
      · exact Option.not_isSome_iff_eq_none.mp hj
      · exact ih (j + 1) ts h m hm (by omega)

lemma findNextAux_congr :
    ∀ (fuel j : ℕ) (ts ts' : List (Option ℚ)),
      (∀ k, j ≤ k → tget ts k = tget ts' k) →
      findNextAux ts j fuel = findNextAux ts' j fuel := by
  intro fuel
  induction fuel with
  | zero => intro j ts ts' _; rfl
  | succ fu ih =>
    intro j ts ts' h
    rw [findNextAux, findNextAux, h j (le_refl j), ih (j + 1) ts ts'
      (fun k hk => h k (by omega))]

/-- The interpolation-loop invariant: length preserved, a filled and
pairwise non-decreasing prefix, an untouched suffix, and the last filled
value at most every remaining anchor (at most the ceiling when no
anchor remains). -/
def FillInv (t0 : List (Option ℚ)) (f c : ℚ) (k : ℕ) (S : List (Option ℚ)) : Prop :=
  S.length = t0.length ∧
  (∀ j, j < k → (tget S j).isSome) ∧
  (∀ j, k ≤ j → tget S j = tget t0 j) ∧
  (∀ j1 j2 x y, j1 ≤ j2 → j2 < k → tget S j1 = some x → tget S j2 = some y → x ≤ y) ∧
  (∀ v j y, 0 < k → tget S (k - 1) = some v → k ≤ j → tget t0 j = some y → v ≤ y) ∧
  (∀ v, 0 < k → tget S (k - 1) = some v → (∀ j, k ≤ j → tget t0 j = none) → v ≤ c)

lemma fillStep_inv (t0 : List (Option ℚ)) (f c : ℚ)
    (HA : ∃ j x, tget t0 j = some x)
    (Hmono : ∀ j k x y, j ≤ k → tget t0 j = some x → tget t0 k = some y → x ≤ y)
    (Hlo : ∀ j x, tget t0 j = some x → f ≤ x)
    (Hhi : ∀ j x, tget t0 j = some x → x ≤ c)
    (k : ℕ) (hk : k < t0.length) (S : List (Option ℚ))
    (hinv : FillInv t0 f c k S) : FillInv t0 f c (k + 1) (fillStep f c S k) := by
  obtain ⟨hlen, hA, hB, hC, hD1, hD2⟩ := hinv
  have hkS : k < S.length := by omega
  by_cases hsome : (tget S k).isSome
  · rw [fillStep, if_pos hsome]
    obtain ⟨b, hb⟩ := Option.isSome_iff_exists.mp hsome
    have hb0 : tget t0 k = some b := by rw [← hB k (le_refl k)]; exact hb
    refine ⟨hlen, ?_, ?_, ?_, ?_, ?_⟩
    · intro j hj
      rcases Nat.lt_succ_iff_lt_or_eq.mp hj with h | rfl
      · exact hA j h
      · exact hsome
    · intro j hj
      exact hB j (by omega)
    · intro j1 j2 x y h12 hj2 hx hy
      rcases Nat.lt_succ_iff_lt_or_eq.mp hj2 with h | rfl
      · exact hC j1 j2 x y h12 h hx hy
      · rw [hb] at hy
        injection hy with hy
        subst hy
        rcases Nat.eq_or_lt_of_le h12 with rfl | hlt
        · rw [hb] at hx
          injection hx with hx
          subst hx
          exact le_refl _
        · obtain ⟨v, hv⟩ := Option.isSome_iff_exists.mp (hA (j2 - 1) (by omega))
          have h1 : x ≤ v := hC j1 (j2 - 1) x v (by omega) (by omega) hx hv
          have h2 : v ≤ b := hD1 v j2 b (by omega) hv (le_refl j2) hb0
          exact le_trans h1 h2
    · intro v j y _ hv hj hy
      rw [show k + 1 - 1 = k from rfl, hb] at hv
      injection hv with hv
      subst hv
      exact Hmono k j b y (by omega) hb0 hy
    · intro v _ hv _
      rw [show k + 1 - 1 = k from rfl, hb] at hv
      injection hv with hv
      subst hv
      exact Hhi k b hb0
  · have hnone : tget S k = none := Option.not_isSome_iff_eq_none.mp hsome
    have ht0k : tget t0 k = none := by rw [← hB k (le_refl k)]; exact hnone
    have hfn : findNext S k = findNext t0 k := by
      rw [findNext, findNext, hlen]
      exact findNextAux_congr _ (k + 1) S t0 (fun m hm => hB m (by omega))
    rcases hfnext : findNext t0 k with _ | n
    · -- no anchor after k: every later position of t0 is empty
      have hafter : ∀ j, k + 1 ≤ j → tget t0 j = none := by
        intro j hj
        by_cases hjl : j < t0.length
        · have := findNextAux_none_spec (t0.length - (k + 1)) (k + 1) t0
            (by rw [← findNext]; exact hfnext) j hj (by omega)
          exact this
        · exact tget_ge_length (by omega)
      rcases k with _ | k'
      · exfalso
        obtain ⟨j, x, hx⟩ := HA
        rcases Nat.eq_zero_or_pos j with rfl | hj
        · rw [ht0k] at hx; cases hx
        · rw [hafter j (by omega)] at hx; cases hx
      · obtain ⟨v, hv⟩ := Option.isSome_iff_exists.mp (hA k' (by omega))
        have hprev : findPrev S (k' + 1) = some k' :=
          findPrev_succ_some (by rw [hv]; rfl)
        have hvc : v ≤ c := by
          refine hD2 v (by omega) (by rw [show k' + 1 - 1 = k' from rfl]; exact hv) ?_
          intro j hj
          rcases Nat.eq_or_lt_of_le hj with rfl | hlt
          · exact ht0k
          · exact hafter j (by omega)
        have hstep : fillStep f c S (k' + 1) =
            S.set (k' + 1) (some (tval S k' +
              (((k' + 1 : ℕ) : ℚ) - ((k' : ℕ) : ℚ)) *
                (if 0 < S.length - 1 - k' then (c - tval S k') / ((S.length - 1 - k' : ℕ) : ℚ)
                 else 0))) := by
          rw [fillStep, if_neg hsome, hprev, hfn, hfnext]
        rw [hstep]
        have hu : 0 < S.length - 1 - k' := by omega
        have huq : ((S.length - 1 - k' : ℕ) : ℚ) ≥ 1 := by
          exact_mod_cast Nat.one_le_iff_ne_zero.mpr (by omega)
        have hvv : tval S k' = v := by rw [tval, hv]; rfl
        set w : ℚ := tval S k' +
            (((k' + 1 : ℕ) : ℚ) - ((k' : ℕ) : ℚ)) *
              (if 0 < S.length - 1 - k' then (c - tval S k') / ((S.length - 1 - k' : ℕ) : ℚ)
               else 0) with hw
        have hwval : w = v + (c - v) / ((S.length - 1 - k' : ℕ) : ℚ) := by
          rw [hw, if_pos hu, hvv]
          push_cast
          ring
        have hvw : v ≤ w := by
          rw [hwval]
          have : 0 ≤ (c - v) / ((S.length - 1 - k' : ℕ) : ℚ) :=
            div_nonneg (by linarith) (by linarith)
          linarith
        have hwc : w ≤ c := by
          rw [hwval]
          have h1 : (c - v) / ((S.length - 1 - k' : ℕ) : ℚ) ≤ c - v :=
            div_le_self (by linarith) huq
          linarith
        refine ⟨by rw [List.length_set, hlen], ?_, ?_, ?_, ?_, ?_⟩
        · intro j hj
          rcases Nat.lt_succ_iff_lt_or_eq.mp hj with h | rfl
          · rw [tget_set_ne (by omega)]
            exact hA j h
          · rw [tget_set_self (by omega)]
            rfl
        · intro j hj
          rw [tget_set_ne (by omega)]
          exact hB j (by omega)
        · intro j1 j2 x y h12 hj2 hx hy
          rcases Nat.lt_succ_iff_lt_or_eq.mp hj2 with h | rfl
          · rw [tget_set_ne (by omega)] at hx hy
            exact hC j1 j2 x y h12 h hx hy
          · rw [tget_set_self (by omega)] at hy
            injection hy with hy
            subst hy
            rcases Nat.eq_or_lt_of_le h12 with rfl | hlt
            · rw [tget_set_self (by omega)] at hx
              injection hx with hx
              subst hx
              exact le_refl _
            · rw [tget_set_ne (by omega)] at hx
              have h1 : x ≤ v := hC j1 k' x v (by omega) (by omega) hx hv
              linarith
        · intro v' j y _ hv' hj hy
          rw [show k' + 1 + 1 - 1 = k' + 1 from rfl, tget_set_self (by omega)] at hv'
          injection hv' with hv'
          rw [hafter j (by omega)] at hy
          cases hy
        · intro v' _ hv' _
          rw [show k' + 1 + 1 - 1 = k' + 1 from rfl, tget_set_self (by omega)] at hv'
          injection hv' with hv'
          subst hv'
          exact hwc
    · -- an anchor follows at position n
      obtain ⟨hn1, hn2, hn3, hn4⟩ := findNextAux_some_spec _ _ _ _
        (by rw [← findNext]; exact hfnext)
      obtain ⟨b, hb⟩ := Option.isSome_iff_exists.mp hn3
      have hnL : n < t0.length := by omega
      have hSb : tget S n = some b := by rw [hB n (by omega)]; exact hb
      have hvb : tval S n = b := by rw [tval, hSb]; rfl
      rcases k with _ | k'
      · have hstep : fillStep f c S 0 =
            S.set 0 (some (qmax f (tval S n -
              (((n : ℕ) : ℚ) - ((0 : ℕ) : ℚ)) *
                (if 0 < n then (tval S n - f) / ((n : ℕ) : ℚ) else 0)))) := by
          rw [fillStep, if_neg hsome, hfn, hfnext]
          rw [show findPrev S 0 = none from rfl]
        rw [hstep]
        have hn0 : 0 < n := by omega
        have hval : qmax f (tval S n -
            (((n : ℕ) : ℚ) - ((0 : ℕ) : ℚ)) *
              (if 0 < n then (tval S n - f) / ((n : ℕ) : ℚ) else 0)) = f := by
          rw [if_pos hn0, hvb]
          have hnne : ((n : ℕ) : ℚ) ≠ 0 := Nat.cast_ne_zero.mpr (by omega)
          have : (((n : ℕ) : ℚ) - ((0 : ℕ) : ℚ)) * ((b - f) / ((n : ℕ) : ℚ)) = b - f := by
            rw [Nat.cast_zero, sub_zero]
            field_simp
          rw [this, show b - (b - f) = f by ring, qmax, if_pos (le_refl f)]
        rw [hval]
        refine ⟨by rw [List.length_set, hlen], ?_, ?_, ?_, ?_, ?_⟩
        · intro j hj
          have hj0 : j = 0 := by omega
          subst hj0
          rw [tget_set_self (by omega)]
          rfl
        · intro j hj
          rw [tget_set_ne (by omega)]
          exact hB j (by omega)
        · intro j1 j2 x y h12 hj2 hx hy
          have hj20 : j2 = 0 := by omega
          have hj10 : j1 = 0 := by omega
          subst hj20; subst hj10
          rw [tget_set_self (by omega)] at hx hy
          injection hx with hx
          injection hy with hy
          subst hx; subst hy
          exact le_refl _
        · intro v j y _ hv hj hy
          rw [show 0 + 1 - 1 = 0 from rfl, tget_set_self (by omega)] at hv
          injection hv with hv
          subst hv
          exact Hlo j y hy
        · intro v _ hv hno
          exfalso
          rw [hno n (by omega)] at hb
          cases hb
      · obtain ⟨v, hv⟩ := Option.isSome_iff_exists.mp (hA k' (by omega))
        have hprev : findPrev S (k' + 1) = some k' :=
          findPrev_succ_some (by rw [hv]; rfl)
        have hvv : tval S k' = v := by rw [tval, hv]; rfl
        have hvleb : v ≤ b := hD1 v n b (by omega)
          (by rw [show k' + 1 - 1 = k' from rfl]; exact hv) (by omega) hb
        have hstep : fillStep f c S (k' + 1) =
            S.set (k' + 1) (some (tval S k' +
              (((k' + 1 : ℕ) : ℚ) - ((k' : ℕ) : ℚ)) / (((n : ℕ) : ℚ) - ((k' : ℕ) : ℚ)) *
                (tval S n - tval S k'))) := by
          rw [fillStep, if_neg hsome, hprev, hfn, hfnext]
        rw [hstep]
        have hnk : (k' + 1) + 1 ≤ n := by omega
        have hd2 : (2 : ℚ) ≤ ((n : ℕ) : ℚ) - ((k' : ℕ) : ℚ) := by
          have h2n : (k' : ℚ) + 2 ≤ (n : ℚ) := by exact_mod_cast (by omega : k' + 2 ≤ n)
          push_cast
          linarith
        set d : ℚ := ((n : ℕ) : ℚ) - ((k' : ℕ) : ℚ) with hdq
        set w : ℚ := tval S k' +
            (((k' + 1 : ℕ) : ℚ) - ((k' : ℕ) : ℚ)) / d * (tval S n - tval S k') with hw
        have hwval : w = v + (b - v) / d := by
          rw [hw, hvv, hvb]
          push_cast
          ring_nf
        have hd0 : 0 < d := by linarith
        have hvw : v ≤ w := by
          rw [hwval]
          have : 0 ≤ (b - v) / d := div_nonneg (by linarith) (by linarith)
          linarith
        have hwb : w ≤ b := by
          rw [hwval]
          have h1 : (b - v) / d ≤ b - v := div_le_self (by linarith) (by linarith)
          linarith
        refine ⟨by rw [List.length_set, hlen], ?_, ?_, ?_, ?_, ?_⟩
        · intro j hj
          rcases Nat.lt_succ_iff_lt_or_eq.mp hj with h | rfl
          · rw [tget_set_ne (by omega)]
            exact hA j h
          · rw [tget_set_self (by omega)]
            rfl
        · intro j hj
          rw [tget_set_ne (by omega)]
          exact hB j (by omega)
        · intro j1 j2 x y h12 hj2 hx hy
          rcases Nat.lt_succ_iff_lt_or_eq.mp hj2 with h | rfl
          · rw [tget_set_ne (by omega)] at hx hy
            exact hC j1 j2 x y h12 h hx hy
          · rw [tget_set_self (by omega)] at hy
            injection hy with hy
            subst hy
            rcases Nat.eq_or_lt_of_le h12 with rfl | hlt
            · rw [tget_set_self (by omega)] at hx
              injection hx with hx
              subst hx
              exact le_refl _
            · rw [tget_set_ne (by omega)] at hx
              have h1 : x ≤ v := hC j1 k' x v (by omega) (by omega) hx hv
              linarith
        · intro v' j y _ hv' hj hy
          rw [show k' + 1 + 1 - 1 = k' + 1 from rfl, tget_set_self (by omega)] at hv'
          injection hv' with hv'
          subst hv'
          by_cases hjn : j < n
          · rw [hn4 j (by omega) hjn] at hy
            cases hy
          · have hby : b ≤ y := Hmono n j b y (by omega) hb hy
            linarith
        · intro v' _ hv' hno
          exfalso
          rw [hno n (by omega)] at hb
          cases hb

lemma findNextAux_isSome_of_exists :
    ∀ (fuel j : ℕ) (ts : List (Option ℚ)),
      (∃ m, j ≤ m ∧ m < j + fuel ∧ (tget ts m).isSome) →
      (findNextAux ts j fuel).isSome := by
  intro fuel
  induction fuel with
  | zero => intro j ts ⟨m, h1, h2, _⟩; omega
  | succ fu ih =>
    intro j ts ⟨m, h1, h2, h3⟩
    rw [findNextAux]
    by_cases hj : (tget ts j).isSome
    · rw [if_pos hj]; rfl
    · rw [if_neg hj]
      refine ih (j + 1) ts ⟨m, ?_, by omega, h3⟩
      rcases Nat.eq_or_lt_of_le h1 with rfl | h
      · exact absurd h3 hj
      · omega

lemma fillStep_complete (f c : ℚ) (S : List (Option ℚ)) (k : ℕ)
    (hk : k < S.length)
    (hex : ∃ m, m < S.length ∧ (tget S m).isSome)
    (hpre : ∀ j, j < k → (tget S j).isSome) :
    (fillStep f c S k).length = S.length ∧
    (∀ j, j < k + 1 → (tget (fillStep f c S k) j).isSome) := by
  by_cases hsome : (tget S k).isSome
  · rw [fillStep, if_pos hsome]
    refine ⟨rfl, ?_⟩
    intro j hj
    rcases Nat.lt_succ_iff_lt_or_eq.mp hj with h | rfl
    · exact hpre j h
    · exact hsome
  · rcases k with _ | k'
    · obtain ⟨m, hm1, hm2⟩ := hex
      have hm0 : m ≠ 0 := fun h => hsome (h ▸ hm2)
      have hnext : (findNext S 0).isSome := by
        rw [findNext]
        exact findNextAux_isSome_of_exists _ 1 S ⟨m, by omega, by omega, hm2⟩
      obtain ⟨n, hn⟩ := Option.isSome_iff_exists.mp hnext
      have hstep : fillStep f c S 0 =
          S.set 0 (some (qmax f (tval S n -
            (((n : ℕ) : ℚ) - ((0 : ℕ) : ℚ)) *
              (if 0 < n then (tval S n - f) / ((n : ℕ) : ℚ) else 0)))) := by
        rw [fillStep, if_neg hsome, hn]
        rfl
      rw [hstep]
      refine ⟨by rw [List.length_set], ?_⟩
      intro j hj
      have hj0 : j = 0 := by omega
      subst hj0
      rw [tget_set_self hk]
      rfl
    · have hprev : findPrev S (k' + 1) = some k' :=
        findPrev_succ_some (hpre k' (by omega))
      rcases hnext : findNext S (k' + 1) with _ | n
      · have hstep : fillStep f c S (k' + 1) =
            S.set (k' + 1) (some (tval S k' +
              (((k' + 1 : ℕ) : ℚ) - ((k' : ℕ) : ℚ)) *
                (if 0 < S.length - 1 - k' then (c - tval S k') / ((S.length - 1 - k' : ℕ) : ℚ)
                 else 0))) := by
          rw [fillStep, if_neg hsome, hprev, hnext]
        rw [hstep]
        refine ⟨by rw [List.length_set], ?_⟩
        intro j hj
        rcases Nat.lt_succ_iff_lt_or_eq.mp hj with h | rfl
        · rw [tget_set_ne (by omega)]
          exact hpre j h
        · rw [tget_set_self hk]
          rfl
      · have hstep : fillStep f c S (k' + 1) =
            S.set (k' + 1) (some (tval S k' +
              (((k' + 1 : ℕ) : ℚ) - ((k' : ℕ) : ℚ)) / (((n : ℕ) : ℚ) - ((k' : ℕ) : ℚ)) *
                (tval S n - tval S k'))) := by
          rw [fillStep, if_neg hsome, hprev, hnext]
        rw [hstep]
        refine ⟨by rw [List.length_set], ?_⟩
        intro j hj
        rcases Nat.lt_succ_iff_lt_or_eq.mp hj with h | rfl
        · rw [tget_set_ne (by omega)]
          exact hpre j h
        · rw [tget_set_self hk]
          rfl

lemma fillLoop_complete (t0 : List (Option ℚ)) (f c : ℚ)
    (hex : ∃ m, m < t0.length ∧ (tget t0 m).isSome) :
    ∀ k, k ≤ t0.length →
      ((List.range k).foldl (fillStep f c) t0).length = t0.length ∧
      (∀ j, j < k → (tget ((List.range k).foldl (fillStep f c) t0) j).isSome) := by
  intro k
  induction k with
  | zero => intro _; exact ⟨rfl, fun j hj => by omega⟩
  | succ k ih =>
    intro hk
    obtain ⟨hlen, hpre⟩ := ih (by omega)
    rw [List.range_succ, List.foldl_append, List.foldl_cons, List.foldl_nil]
    have hexS : ∃ m, m < ((List.range k).foldl (fillStep f c) t0).length ∧
        (tget ((List.range k).foldl (fillStep f c) t0) m).isSome := by
      rcases k with _ | k'
      · simpa [hlen] using hex
      · exact ⟨k', by omega, hpre k' (by omega)⟩
    obtain ⟨h1, h2⟩ := fillStep_complete f c _ k (by omega) hexS hpre
    exact ⟨by rw [h1, hlen], h2⟩

lemma fillLoop_fillInv (t0 : List (Option ℚ)) (f c : ℚ)
    (HA : ∃ j x, tget t0 j = some x)
    (Hmono : ∀ j k x y, j ≤ k → tget t0 j = some x → tget t0 k = some y → x ≤ y)
    (Hlo : ∀ j x, tget t0 j = some x → f ≤ x)
    (Hhi : ∀ j x, tget t0 j = some x → x ≤ c) :
    ∀ k, k ≤ t0.length →
      FillInv t0 f c k ((List.range k).foldl (fillStep f c) t0) := by
  intro k
  induction k with
  | zero =>
    intro _
    refine ⟨rfl, fun j hj => by omega, fun j _ => rfl, fun j1 j2 x y _ hj2 _ _ => by omega,
      fun v j y h0 => by omega, fun v h0 => by omega⟩
  | succ k ih =>
    intro hk
    rw [List.range_succ, List.foldl_append, List.foldl_cons, List.foldl_nil]
    exact fillStep_inv t0 f c HA Hmono Hlo Hhi k (by omega) _ (ih (by omega))

lemma round3_mono {x y : ℚ} (h : x ≤ y) : round3 x ≤ round3 y := by
  rw [round3, round3]
  have h1 : jsRound (x * 1000) ≤ jsRound (y * 1000) := by
    rw [jsRound, jsRound]
    exact Int.floor_mono (by linarith)
  have h2 : ((jsRound (x * 1000) : ℤ) : ℚ) ≤ ((jsRound (y * 1000) : ℤ) : ℚ) :=
    Int.cast_le.mpr h1
  have h3 : (0 : ℚ) < 1000 := by norm_num
  exact (div_le_div_iff_of_pos_right h3).mpr h2

lemma interpolateMissingCore_any_eq (mapping : List BeatMatchEntry) (cues : List Cue)
    (segStart segEnd : Option ℚ)
    (hany : (initialTimes mapping).any Option.isSome = true) :
    interpolateMissingCore mapping cues segStart segEnd =
      (List.range (initialTimes mapping).length).foldl
        (fillStep (floorTimeOf cues segStart)
          (ceilTimeOf cues mapping.length segEnd)) (initialTimes mapping) := by
  rw [interpolateMissingCore]
  simp only [hany, if_pos]
  rw [fillLoop_eq_foldl]

lemma interpolateMissingCore_noAnchor_eq (mapping : List BeatMatchEntry) (cues : List Cue)
    (segStart segEnd : Option ℚ)
    (hany : ¬ (initialTimes mapping).any Option.isSome = true) :
    interpolateMissingCore mapping cues segStart segEnd =
      (noAnchorTimes (initialTimes mapping).length (floorTimeOf cues segStart)
        (ceilTimeOf cues mapping.length segEnd)).map some := by
  rw [interpolateMissingCore]
  simp only [Bool.not_eq_true] at hany
  simp only [hany]
  rfl

lemma exists_anchor_of_any {ts : List (Option ℚ)}
    (hany : ts.any Option.isSome = true) :
    ∃ m, m < ts.length ∧ (tget ts m).isSome := by
  obtain ⟨o, ho, hso⟩ := List.any_eq_true.mp hany
  obtain ⟨m, hm, rfl⟩ := List.getElem_of_mem ho
  refine ⟨m, hm, ?_⟩
  rw [tget, List.getD_eq_getElem _ _ hm]
  exact hso

lemma interpolateMissingCore_all_some (mapping : List BeatMatchEntry) (cues : List Cue)
    (segStart segEnd : Option ℚ) :
    ∀ t ∈ interpolateMissingCore mapping cues segStart segEnd, t.isSome := by
  by_cases hany : (initialTimes mapping).any Option.isSome = true
  · rw [interpolateMissingCore_any_eq mapping cues segStart segEnd hany]
    obtain ⟨hlen, hall⟩ := fillLoop_complete (initialTimes mapping)
      (floorTimeOf cues segStart) (ceilTimeOf cues mapping.length segEnd)
      (exists_anchor_of_any hany) (initialTimes mapping).length (le_refl _)
    intro t ht
    obtain ⟨m, hm, rfl⟩ := List.getElem_of_mem ht
    have := hall m (by omega)
    rw [tget, List.getD_eq_getElem _ _ hm] at this
    exact this
  · rw [interpolateMissingCore_noAnchor_eq mapping cues segStart segEnd hany]
    intro t ht
    obtain ⟨x, _, rfl⟩ := List.mem_map.mp ht
    rfl

lemma interpolateMissing_getD (mapping : List BeatMatchEntry) (cues : List Cue)
    (segStart segEnd : Option ℚ) (i : ℕ)
    (hi : i < (interpolateMissingCore mapping cues segStart segEnd).length) :
    (interpolateMissing mapping cues segStart segEnd).getD i 0 =
      round3 (((interpolateMissingCore mapping cues segStart segEnd).getD i none).getD 0) := by
  rw [interpolateMissing, List.getD_eq_getElem?_getD, List.getElem?_map,
    List.getElem?_eq_getElem hi]
  rw [List.getD_eq_getElem?_getD, List.getElem?_eq_getElem hi]
  rfl

lemma interpolateMissingCore_monotone (mapping : List BeatMatchEntry) (cues : List Cue)
    (segStart segEnd : Option ℚ)
    (Hfc : floorTimeOf cues segStart ≤ ceilTimeOf cues mapping.length segEnd)
    (Hmono : ∀ j k x y, j ≤ k → tget (initialTimes mapping) j = some x →
      tget (initialTimes mapping) k = some y → x ≤ y)
    (Hbnd : ∀ j x, tget (initialTimes mapping) j = some x →
      floorTimeOf cues segStart ≤ x ∧ x ≤ ceilTimeOf cues mapping.length segEnd) :
    ∀ i, i + 1 < (interpolateMissingCore mapping cues segStart segEnd).length →
      (((interpolateMissingCore mapping cues segStart segEnd).getD i none).getD 0 : ℚ) ≤
        ((interpolateMissingCore mapping cues segStart segEnd).getD (i + 1) none).getD 0 := by
  by_cases hany : (initialTimes mapping).any Option.isSome = true
  · rw [interpolateMissingCore_any_eq mapping cues segStart segEnd hany]
    obtain ⟨m, hmL, hms⟩ := exists_anchor_of_any hany
    obtain ⟨x0, hx0⟩ := Option.isSome_iff_exists.mp hms
    obtain ⟨hlen, hA, _, hC, _, _⟩ := fillLoop_fillInv (initialTimes mapping)
      (floorTimeOf cues segStart) (ceilTimeOf cues mapping.length segEnd)
      ⟨m, x0, hx0⟩ Hmono (fun j x hx => (Hbnd j x hx).1) (fun j x hx => (Hbnd j x hx).2)
      (initialTimes mapping).length (le_refl _)
    intro i hi
    rw [hlen] at hi
    obtain ⟨xi, hxi⟩ := Option.isSome_iff_exists.mp (hA i (by omega))
    obtain ⟨xj, hxj⟩ := Option.isSome_iff_exists.mp (hA (i + 1) (by omega))
    have hle : xi ≤ xj := hC i (i + 1) xi xj (by omega) (by omega) hxi hxj
    rw [tget] at hxi hxj
    rw [hxi, hxj]
    exact hle
  · rw [interpolateMissingCore_noAnchor_eq mapping cues segStart segEnd hany]
    intro i hi
    simp only [List.length_map, noAnchorTimes, List.length_range] at hi
    have hval : ∀ j, j < (initialTimes mapping).length →
        ((((noAnchorTimes (initialTimes mapping).length (floorTimeOf cues segStart)
            (ceilTimeOf cues mapping.length segEnd)).map some).getD j none).getD 0 : ℚ) =
          (if (initialTimes mapping).length = 1
           then (floorTimeOf cues segStart + ceilTimeOf cues mapping.length segEnd) / 2
           else floorTimeOf cues segStart +
             ((j : ℚ) / (((initialTimes mapping).length : ℚ) - 1)) *
               (ceilTimeOf cues mapping.length segEnd - floorTimeOf cues segStart)) := by
      intro j hj
      rw [List.getD_eq_getElem _ _ (by
        simp only [List.length_map, noAnchorTimes, List.length_range]
        exact hj)]
      simp only [List.getElem_map, noAnchorTimes, List.getElem_range]
      rfl
    rw [hval i (by omega), hval (i + 1) (by omega)]
    have hn1 : ¬ (initialTimes mapping).length = 1 := by omega
    rw [if_neg hn1, if_neg hn1]
    have hd : (0 : ℚ) < ((initialTimes mapping).length : ℚ) - 1 := by
      have : (2 : ℚ) ≤ ((initialTimes mapping).length : ℚ) := by
        exact_mod_cast (by omega : 2 ≤ (initialTimes mapping).length)
      linarith
    have hfrac : ((i : ℚ) / (((initialTimes mapping).length : ℚ) - 1)) ≤
        (((i + 1 : ℕ) : ℚ) / (((initialTimes mapping).length : ℚ) - 1)) := by
      refine (div_le_div_iff_of_pos_right hd).mpr ?_
      push_cast
      linarith
    have hcf : (0 : ℚ) ≤ ceilTimeOf cues mapping.length segEnd - floorTimeOf cues segStart := by
      linarith
    nlinarith [mul_le_mul_of_nonneg_right hfrac hcf]

/-- C3: for every mapping, cue list and optional segment bounds, the
pre-rounding beat-time array of interpolateMissing has no null entries,
and after interpolateSegmentTiming every segment's timing range is
non-null; and the rounded beat times are non-decreasing provided the
floor is at most the ceiling and the anchor times written by the
matched entries are non-decreasing in beat order and lie within
[floor, ceil] — but not, as claimed, for arbitrary anchors. -/
theorem interpolate_complete_and_monotone (mapping : List BeatMatchEntry)
    (cues : List Cue) (segStart segEnd : Option ℚ) (ms : List SegMatch) :
    (∀ t ∈ interpolateMissingCore mapping cues segStart segEnd, t.isSome) ∧
    (∀ i, i < ms.length →
      (((interpolateSegmentTiming ms).getD i default).timing).isSome) ∧
    ((floorTimeOf cues segStart ≤ ceilTimeOf cues mapping.length segEnd) →
     (∀ j k x y, j ≤ k → tget (initialTimes mapping) j = some x →
        tget (initialTimes mapping) k = some y → x ≤ y) →
     (∀ j x, tget (initialTimes mapping) j = some x →
        floorTimeOf cues segStart ≤ x ∧ x ≤ ceilTimeOf cues mapping.length segEnd) →
     ∀ i, i + 1 < (interpolateMissing mapping cues segStart segEnd).length →
       (interpolateMissing mapping cues segStart segEnd).getD i 0 ≤
         (interpolateMissing mapping cues segStart segEnd).getD (i + 1) 0) := by
  refine ⟨interpolateMissingCore_all_some mapping cues segStart segEnd,
    interpolateSegmentTiming_all_some ms, ?_⟩
  intro Hfc Hmono Hbnd i hi
  rw [interpolateMissing, List.length_map] at hi
  rw [interpolateMissing_getD mapping cues segStart segEnd i (by omega),
    interpolateMissing_getD mapping cues segStart segEnd (i + 1) hi]
  exact round3_mono
    (interpolateMissingCore_monotone mapping cues segStart segEnd Hfc Hmono Hbnd i hi)

/-- C3 counterexample: a mapping whose matched anchors come out of
order (times 5 then 1) yields beat times [5, 1], which are decreasing,
so interpolateMissing is not non-decreasing for all inputs. -/
theorem interpolateMissing_not_monotone :
    ¬ (∀ i, i + 1 < (interpolateMissing mapping3c [] none none).length →
        (interpolateMissing mapping3c [] none none).getD i 0 ≤
          (interpolateMissing mapping3c [] none none).getD (i + 1) 0) := by
  intro h
  have hcore : interpolateMissingCore mapping3c [] none none =
      [some (5 : ℚ), some 1] := rfl
  have hlen : (interpolateMissing mapping3c [] none none).length = 2 := by
    rw [interpolateMissing, List.length_map, hcore]
    rfl
  have h0 := h 0 (by omega)
  rw [interpolateMissing_getD mapping3c [] none none 0 (by rw [hcore]; norm_num),
    interpolateMissing_getD mapping3c [] none none 1 (by rw [hcore]; norm_num),
    hcore] at h0
  norm_num [List.getD, round3, jsRound] at h0

theorem interpolate_complete_and_monotone_witness :
    (interpolateMissing mapping3w [] (some 0) (some 4)).getD 0 0 ≤
      (interpolateMissing mapping3w [] (some 0) (some 4)).getD 1 0 := by
  have hI : initialTimes mapping3w = [some (1 : ℚ), some 2] := rfl
  have hf : floorTimeOf [] (some 0) = 0 := rfl
  have hc : ceilTimeOf [] mapping3w.length (some 4) = 4 := rfl
  have hlen2 : (interpolateMissing mapping3w [] (some 0) (some 4)).length = 2 := rfl
  refine (interpolate_complete_and_monotone mapping3w [] (some 0) (some 4) []).2.2
    ?_ ?_ ?_ 0 (by omega)
  · rw [hf, hc]; norm_num
  · intro j k x y hjk hx hy
    rw [hI] at hx hy
    have hex : ∀ m z, tget [some (1 : ℚ), some 2] m = some z →
        (m = 0 ∧ z = 1) ∨ (m = 1 ∧ z = 2) := by
      intro m z hz
      rcases m with _ | _ | m
      · left
        have h1 : (some (1 : ℚ) : Option ℚ) = some z := hz
        injection h1 with h1
        exact ⟨rfl, h1.symm⟩
      · right
        have h1 : (some (2 : ℚ) : Option ℚ) = some z := hz
        injection h1 with h1
        exact ⟨rfl, h1.symm⟩
      · rw [tget_ge_length (by simp)] at hz
        cases hz
    rcases hex j x hx with ⟨rfl, rfl⟩ | ⟨rfl, rfl⟩ <;>
      rcases hex k y hy with ⟨rfl, rfl⟩ | ⟨rfl, rfl⟩
    · norm_num
    · norm_num
    · omega
    · norm_num
  · intro j x hx
    rw [hI] at hx
    rw [hf, hc]
    rcases j with _ | _ | j
    · have h1 : (some (1 : ℚ) : Option ℚ) = some x := hx
      injection h1 with h1
      subst h1
      norm_num
    · have h1 : (some (2 : ℚ) : Option ℚ) = some x := hx
      injection h1 with h1
      subst h1
      norm_num
    · rw [tget_ge_length (by simp)] at hx
      cases hx

/-! ### Segment pass 2: non-overlap and order of accepted ranges (C2) -/

lemma oget_set_self {l : List (Option (ℕ × ℕ))} {i : ℕ} (h : i < l.length)
    (v : Option (ℕ × ℕ)) : (l.set i v).getD i none = v := by
  rw [List.getD_eq_getElem?_getD]
  simp [List.getElem?_set_self, h]

lemma oget_set_ne {l : List (Option (ℕ × ℕ))} {i j : ℕ} (h : i ≠ j)
    (v : Option (ℕ × ℕ)) : (l.set i v).getD j none = l.getD j none := by
  rw [List.getD_eq_getElem?_getD, List.getElem?_set_ne h, ← List.getD_eq_getElem?_getD]

lemma rget_set_self {l : List RawMatch} {i : ℕ} (h : i < l.length)
    (v : RawMatch) : (l.set i v).getD i default = v := by
  rw [List.getD_eq_getElem?_getD]
  simp [List.getElem?_set_self, h]

lemma rget_set_ne {l : List RawMatch} {i j : ℕ} (h : i ≠ j)
    (v : RawMatch) : (l.set i v).getD j default = l.getD j default := by
  rw [List.getD_eq_getElem?_getD, List.getElem?_set_ne h, ← List.getD_eq_getElem?_getD]

/-- All ranges in assigned are ordered with the positions. -/
def assignedOrdered (a : List (Option (ℕ × ℕ))) : Prop :=
  ∀ i j ri rj, i < j → a.getD i none = some ri → a.getD j none = some rj →
    ri.2 < rj.1

lemma validRange_spec {assigned : List (Option (ℕ × ℕ))} {idx : ℕ} {r : ℕ × ℕ}
    (h : validRange assigned idx r = true) :
    ∀ i a, assigned.getD i none = some a →
      (i < idx → a.2 < r.1) ∧ (idx < i → r.2 < a.1) := by
  intro i a ha
  have hiL : i < assigned.length := by
    by_contra hge
    rw [List.getD_eq_getElem?_getD, List.getElem?_eq_none (by omega)] at ha
    cases ha
  have hai : assigned[i] = some a := by
    rw [← List.getD_eq_getElem _ _ hiL, ha]
  rw [validRange, List.all_eq_true] at h
  have hmem : ((i, some a) : ℕ × Option (ℕ × ℕ)) ∈ assigned.enum := by
    have hEi : assigned.enum.get ⟨i, by rw [List.enum_length]; exact hiL⟩
        = (i, some a) := by
      rw [List.get_eq_getElem, List.getElem_enum, hai]
    rw [← hEi]
    exact List.get_mem _ _ _
  have hp := h _ hmem
  simp only at hp
  constructor
  · intro hlt
    rw [if_pos hlt] at hp
    exact of_decide_eq_true hp
  · intro hgt
    rw [if_neg (by omega), if_pos hgt] at hp
    exact of_decide_eq_true hp

/-- The pass-2 loop invariant: assigned and the raw list have equal
length, the assigned ranges are ordered with the positions, every
matched raw entry is either already assigned its own range or still
pending, and the pending entries are distinct, matched, carry both cue
indices, and agree with the raw list. -/
def Pass2Inv (st : List (Option (ℕ × ℕ)) × List RawMatch)
    (pend : List (ℕ × RawMatch)) : Prop :=
  st.1.length = st.2.length ∧
  assignedOrdered st.1 ∧
  (∀ i, (st.2.getD i default).matched = true →
    (∃ s e, (st.2.getD i default).startCueIdx = some s ∧
      (st.2.getD i default).endCueIdx = some e ∧
      st.1.getD i none = some (s, e)) ∨
    (i, st.2.getD i default) ∈ pend) ∧
  (∀ p ∈ pend, p.1 < st.2.length ∧ st.2.getD p.1 default = p.2 ∧
    p.2.matched = true ∧ ∃ s e, p.2.startCueIdx = some s ∧ p.2.endCueIdx = some e) ∧
  pend.Pairwise (fun p q => p.1 ≠ q.1)

lemma pass2Fold_inv :
    ∀ (pend : List (ℕ × RawMatch)) (st : List (Option (ℕ × ℕ)) × List RawMatch),
      Pass2Inv st pend → Pass2Inv (pass2Fold pend st) [] := by
  intro pend
  induction pend with
  | nil =>
    intro st h
    obtain ⟨assigned, rms⟩ := st
    exact h
  | cons p rest ih =>
    intro st h
    obtain ⟨idx, m⟩ := p
    obtain ⟨assigned, rms⟩ := st
    obtain ⟨hlen, hord, hlink, hpend, hpair⟩ := h
    dsimp only at hlen hord hlink hpend
    obtain ⟨hidxL, hrm, hmat, s, e, hs, he⟩ := hpend (idx, m) (by simp)
    dsimp only at hidxL hrm hmat hs he
    have hidxA : idx < assigned.length := by omega
    rw [pass2Fold]
    simp only [hs, he]
    by_cases hv : validRange assigned idx (s, e) = true
    · rw [if_pos hv]
      refine ih _ ⟨by simpa using hlen, ?_, ?_, ?_, ?_⟩
      · intro i j ri rj hij hi hj
        by_cases hii : i = idx
        · subst hii
          rw [oget_set_self hidxA] at hi
          injection hi with hi
          subst hi
          rw [oget_set_ne (by omega)] at hj
          exact (validRange_spec hv j rj hj).2 hij
        · by_cases hjj : j = idx
          · subst hjj
            rw [oget_set_self hidxA] at hj
            injection hj with hj
            subst hj
            rw [oget_set_ne (by omega)] at hi
            exact (validRange_spec hv i ri hi).1 hij
          · rw [oget_set_ne (by omega)] at hi
            rw [oget_set_ne (by omega)] at hj
            exact hord i j ri rj hij hi hj
      · intro i hmi
        by_cases hii : i = idx
        · subst hii
          left
          refine ⟨s, e, ?_, ?_, ?_⟩
          · rw [hrm]; exact hs
          · rw [hrm]; exact he
          · rw [oget_set_self hidxA]
        · rcases hlink i hmi with ⟨s', e', h1, h2, h3⟩ | hmem
          · exact Or.inl ⟨s', e', h1, h2, by rw [oget_set_ne (by omega)]; exact h3⟩
          · right
            rcases List.mem_cons.mp hmem with heq | hr
            · exfalso
              apply hii
              exact congrArg Prod.fst heq
            · exact hr
      · intro p hp
        exact hpend p (List.mem_cons_of_mem _ hp)
      · exact List.Pairwise.of_cons hpair
    · rw [if_neg hv]
      have hlen2 : (rms.set idx (unmatchRaw (rms.getD idx default))).length = rms.length :=
        List.length_set rms idx _
      refine ih _ ⟨by simpa [hlen2] using hlen, hord, ?_, ?_, ?_⟩
      · intro i hmi
        by_cases hii : i = idx
        · subst hii
          rw [rget_set_self hidxL] at hmi
          exact absurd hmi (by simp [unmatchRaw])
        · rw [rget_set_ne (by omega)] at hmi
          rcases hlink i hmi with ⟨s', e', h1, h2, h3⟩ | hmem
          · exact Or.inl ⟨s', e', by rw [rget_set_ne (by omega)]; exact h1,
              by rw [rget_set_ne (by omega)]; exact h2, h3⟩
          · right
            rw [rget_set_ne (by omega)]
            rcases List.mem_cons.mp hmem with heq | hr
            · exfalso
              apply hii
              exact congrArg Prod.fst heq
            · exact hr
      · intro p hp
        obtain ⟨h1, h2, h3, h4⟩ := hpend p (List.mem_cons_of_mem _ hp)
        have hne : idx ≠ p.1 := List.rel_of_pairwise_cons hpair hp
        exact ⟨by rw [List.length_set]; exact h1, by rw [rget_set_ne hne]; exact h2, h3, h4⟩
      · exact List.Pairwise.of_cons hpair

lemma pass1Segment_matched_idxs (cws : List (List (List Char))) (seg : SrtSegment)
    (h : (pass1Segment cws seg).matched = true) :
    ∃ s e, (pass1Segment cws seg).startCueIdx = some s ∧
      (pass1Segment cws seg).endCueIdx = some e := by
  rw [pass1Segment] at h ⊢
  by_cases hshort : (normalizeL seg.script.data).length < 10
  · rw [if_pos hshort] at h
    cases h
  · rw [if_neg hshort] at h ⊢
    simp only at h ⊢
    have hsome : (pass1Best cws ((jsWords (normalizeL seg.script.data)).dedup)
        (((jsWords (normalizeL seg.script.data)).dedup).filter isContentWord)).2.isSome :=
      (Bool.and_eq_true_iff.mp h).2
    obtain ⟨⟨a, b⟩, hab⟩ := Option.isSome_iff_exists.mp hsome
    refine ⟨a, b, ?_, ?_⟩
    · rw [if_pos h, hab]
      rfl
    · rw [if_pos h, hab]
      rfl

lemma rget_default {l : List RawMatch} {i : ℕ} (h : l.length ≤ i) :
    l.getD i default = default := by
  rw [List.getD_eq_getElem?_getD, List.getElem?_eq_none h]
  rfl

lemma mem_sortedMatchedIdxs {rawMatches : List RawMatch} {p : ℕ × RawMatch} :
    p ∈ sortedMatchedIdxs rawMatches ↔
      p ∈ rawMatches.enum ∧ p.2.matched = true := by
  rw [sortedMatchedIdxs, (List.mergeSort_perm _ _).mem_iff, List.mem_filter]

lemma mem_enum_spec {l : List RawMatch} {p : ℕ × RawMatch} (h : p ∈ l.enum) :
    p.1 < l.length ∧ l.getD p.1 default = p.2 := by
  obtain ⟨k, hk, hek⟩ := List.getElem_of_mem h
  have hkl : k < l.length := by rw [List.enum_length] at hk; exact hk
  rw [List.getElem_enum] at hek
  subst hek
  refine ⟨hkl, ?_⟩
  dsimp only
  rw [List.getD_eq_getElem _ _ hkl]

lemma sortedMatchedIdxs_pairwise (rawMatches : List RawMatch) :
    (sortedMatchedIdxs rawMatches).Pairwise (fun p q => p.1 ≠ q.1) := by
  rw [sortedMatchedIdxs, ((List.mergeSort_perm _ _).pairwise_iff (fun h => Ne.symm h))]
  refine List.Pairwise.filter _ ?_
  have hnd : (rawMatches.enum.map Prod.fst).Pairwise (fun a b => a ≠ b) := by
    rw [List.enum_map_fst]
    exact List.nodup_range _
  exact (List.pairwise_map.mp hnd)

lemma pass2_initial (rawMatches : List RawMatch)
    (hwf : ∀ m ∈ rawMatches, m.matched = true →
      ∃ s e, m.startCueIdx = some s ∧ m.endCueIdx = some e) :
    Pass2Inv (List.replicate rawMatches.length none, rawMatches)
      (sortedMatchedIdxs rawMatches) := by
  have hrep : ∀ i, (List.replicate rawMatches.length (none : Option (ℕ × ℕ))).getD i none
      = none := by
    intro i
    rw [List.getD_eq_getElem?_getD, List.getElem?_replicate]
    by_cases h : i < rawMatches.length
    · rw [if_pos h]
      rfl
    · rw [if_neg h]
      rfl
  refine ⟨by simp, ?_, ?_, ?_, sortedMatchedIdxs_pairwise rawMatches⟩
  · intro i j ri rj hij hi hj
    rw [hrep i] at hi
    cases hi
  · intro i hmi
    dsimp only at hmi ⊢
    right
    by_cases hiL : i < rawMatches.length
    · rw [mem_sortedMatchedIdxs]
      refine ⟨?_, hmi⟩
      have : rawMatches.enum.get ⟨i, by rw [List.enum_length]; exact hiL⟩
          = (i, rawMatches.getD i default) := by
        rw [List.get_eq_getElem, List.getElem_enum, List.getD_eq_getElem _ _ hiL]
      rw [← this]
      exact List.get_mem _ _ _
    · rw [rget_default (show rawMatches.length ≤ i by omega)] at hmi
      cases hmi
  · intro p hp
    dsimp only
    obtain ⟨hmem, hmat⟩ := mem_sortedMatchedIdxs.mp hp
    obtain ⟨h1, h2⟩ := mem_enum_spec hmem
    refine ⟨h1, h2, hmat, ?_⟩
    refine hwf p.2 ?_ hmat
    rw [← h2]
    rw [List.getD_eq_getElem _ _ h1]
    exact List.getElem_mem _

lemma getD_setTiming_fields (ms : List SegMatch) (i : ℕ) (t : ℚ × ℚ) (j : ℕ) :
    ((setTiming ms i t).getD j default).matched = ((ms.getD j default)).matched ∧
    ((setTiming ms i t).getD j default).startCueIdx = ((ms.getD j default)).startCueIdx ∧
    ((setTiming ms i t).getD j default).endCueIdx = ((ms.getD j default)).endCueIdx := by
  by_cases hij : i = j
  · subst hij
    by_cases hiL : i < ms.length
    · rw [getD_setTiming_self hiL]
      exact ⟨rfl, rfl, rfl⟩
    · rw [setTiming, List.set_eq_of_length_le (by omega)]
      exact ⟨rfl, rfl, rfl⟩
  · rw [getD_setTiming_ne hij]
    exact ⟨rfl, rfl, rfl⟩

lemma segFillStep_fields (ms : List SegMatch) (i : ℕ) (j : ℕ) :
    ((segFillStep ms i).getD j default).matched = ((ms.getD j default)).matched ∧
    ((segFillStep ms i).getD j default).startCueIdx = ((ms.getD j default)).startCueIdx ∧
    ((segFillStep ms i).getD j default).endCueIdx = ((ms.getD j default)).endCueIdx := by
  rw [segFillStep]
  by_cases hsome : (((ms.getD i default)).timing).isSome
  · rw [if_pos hsome]
    exact ⟨rfl, rfl, rfl⟩
  · rw [if_neg hsome]
    rcases segFindPrev ms i with _ | p <;> rcases segFindNext ms i with _ | n <;>
      simp only [] <;> exact getD_setTiming_fields ms i _ j

lemma foldl_segFillStep_fields :
    ∀ (idxs : List ℕ) (ms : List SegMatch) (j : ℕ),
      ((idxs.foldl segFillStep ms).getD j default).matched
          = ((ms.getD j default)).matched ∧
      ((idxs.foldl segFillStep ms).getD j default).startCueIdx
          = ((ms.getD j default)).startCueIdx ∧
      ((idxs.foldl segFillStep ms).getD j default).endCueIdx
          = ((ms.getD j default)).endCueIdx := by
  intro idxs
  induction idxs with
  | nil => exact fun ms j => ⟨rfl, rfl, rfl⟩
  | cons i rest ih =>
    intro ms j
    rw [List.foldl_cons]
    obtain ⟨h1, h2, h3⟩ := ih (segFillStep ms i) j
    obtain ⟨g1, g2, g3⟩ := segFillStep_fields ms i j
    exact ⟨h1.trans g1, h2.trans g2, h3.trans g3⟩

lemma interpolateSegmentTiming_fields (ms : List SegMatch) (j : ℕ) :
    (((interpolateSegmentTiming ms).getD j default)).matched
        = ((ms.getD j default)).matched ∧
    (((interpolateSegmentTiming ms).getD j default)).startCueIdx
        = ((ms.getD j default)).startCueIdx ∧
    (((interpolateSegmentTiming ms).getD j default)).endCueIdx
        = ((ms.getD j default)).endCueIdx := by
  rw [interpolateSegmentTiming]
  exact foldl_segFillStep_fields _ ms j

lemma buildSegMatches_fields (cues : List Cue) (rms : List RawMatch) (j : ℕ) :
    (((buildSegMatches cues rms).getD j default)).matched
        = ((rms.getD j default)).matched ∧
    (((buildSegMatches cues rms).getD j default)).startCueIdx
        = ((rms.getD j default)).startCueIdx ∧
    (((buildSegMatches cues rms).getD j default)).endCueIdx
        = ((rms.getD j default)).endCueIdx := by
  by_cases hj : j < rms.length
  · rw [buildSegMatches, List.getD_eq_getElem _ _ (by rw [List.length_map]; exact hj),
      List.getElem_map, List.getD_eq_getElem _ _ hj]
    exact ⟨rfl, rfl, rfl⟩
  · rw [buildSegMatches, List.getD_eq_getElem?_getD,
      List.getElem?_eq_none (by rw [List.length_map]; omega),
      List.getD_eq_getElem?_getD, List.getElem?_eq_none (by omega)]
    exact ⟨rfl, rfl, rfl⟩

lemma mapSrtToSegmentsCues_segmentMatches (cues : List Cue)
    (segments : List SrtSegment) :
    (mapSrtToSegmentsCues cues segments).segmentMatches =
      interpolateSegmentTiming (buildSegMatches cues
        (pass2Fold
          (sortedMatchedIdxs (segments.map (pass1Segment
            ((cues.map (fun cu => normalizeL cu.text.data)).map
              (fun t => (jsWords t).dedup)))))
          (List.replicate segments.length none,
            segments.map (pass1Segment
              ((cues.map (fun cu => normalizeL cu.text.data)).map
                (fun t => (jsWords t).dedup))))).2) := rfl

/-- C2: in the output of mapSrtToSegments, any two distinct matched
segments own cue-index ranges, and the earlier segment's range ends
strictly before the later segment's range starts, so accepted ranges
never intersect and segment order matches range order. -/
theorem mapSrtToSegments_nonoverlap (cues : List Cue) (segments : List SrtSegment)
    (i j : ℕ) (hij : i < j)
    (hmi : (((mapSrtToSegmentsCues cues segments).segmentMatches).getD i
      default).matched = true)
    (hmj : (((mapSrtToSegmentsCues cues segments).segmentMatches).getD j
      default).matched = true) :
    ∃ si ei sj ej,
      (((mapSrtToSegmentsCues cues segments).segmentMatches).getD i
        default).startCueIdx = some si ∧
      (((mapSrtToSegmentsCues cues segments).segmentMatches).getD i
        default).endCueIdx = some ei ∧
      (((mapSrtToSegmentsCues cues segments).segmentMatches).getD j
        default).startCueIdx = some sj ∧
      (((mapSrtToSegmentsCues cues segments).segmentMatches).getD j
        default).endCueIdx = some ej ∧
      ei < sj := by
  have hlenEq : (segments.map (pass1Segment
      ((cues.map (fun cu => normalizeL cu.text.data)).map
        (fun t => (jsWords t).dedup)))).length = segments.length :=
    List.length_map _ _
  have hseg : (mapSrtToSegmentsCues cues segments).segmentMatches =
      interpolateSegmentTiming (buildSegMatches cues
        (pass2Fold
          (sortedMatchedIdxs (segments.map (pass1Segment
            ((cues.map (fun cu => normalizeL cu.text.data)).map
              (fun t => (jsWords t).dedup)))))
          (List.replicate (segments.map (pass1Segment
            ((cues.map (fun cu => normalizeL cu.text.data)).map
              (fun t => (jsWords t).dedup)))).length none,
            segments.map (pass1Segment
              ((cues.map (fun cu => normalizeL cu.text.data)).map
                (fun t => (jsWords t).dedup))))).2) := by
    rw [mapSrtToSegmentsCues_segmentMatches, hlenEq]
  have hwf : ∀ m ∈ segments.map (pass1Segment
      ((cues.map (fun cu => normalizeL cu.text.data)).map
        (fun t => (jsWords t).dedup))), m.matched = true →
      ∃ s e, m.startCueIdx = some s ∧ m.endCueIdx = some e := by
    intro m hm hmat
    obtain ⟨seg, _, rfl⟩ := List.mem_map.mp hm
    exact pass1Segment_matched_idxs _ _ hmat
  obtain ⟨hlenI, hord, hlink, _, _⟩ := pass2Fold_inv _ _
    (pass2_initial _ hwf)
  rw [hseg] at hmi hmj ⊢
  obtain ⟨hfi1, hfi2, hfi3⟩ := interpolateSegmentTiming_fields
    (buildSegMatches cues _) i
  obtain ⟨hfj1, hfj2, hfj3⟩ := interpolateSegmentTiming_fields
    (buildSegMatches cues _) j
  obtain ⟨hbi1, hbi2, hbi3⟩ := buildSegMatches_fields cues _ i
  obtain ⟨hbj1, hbj2, hbj3⟩ := buildSegMatches_fields cues _ j
  rw [hfi1, hbi1] at hmi
  rw [hfj1, hbj1] at hmj
  rcases hlink i hmi with ⟨si, ei, hsi, hei, hai⟩ | hin
  · rcases hlink j hmj with ⟨sj, ej, hsj, hej, haj⟩ | hjn
    · refine ⟨si, ei, sj, ej, ?_, ?_, ?_, ?_, ?_⟩
      · rw [hfi2, hbi2]
        exact hsi
      · rw [hfi3, hbi3]
        exact hei
      · rw [hfj2, hbj2]
        exact hsj
      · rw [hfj3, hbj3]
        exact hej
      · exact hord i j (si, ei) (sj, ej) hij hai haj
    · cases hjn
  · cases hin

lemma expandLoop_step (sf sc : List (List Char)) (start endIdx : ℕ)
    (cueWs : List (List Char)) (rest : List (List (List Char))) (st : WinState)
    (hcap : ¬ start + 40 ≤ endIdx)
    (ww wc : List (List Char))
    (hww : addWords st.windowWords cueWs = ww)
    (hwc : addWords st.windowContent (cueWs.filter isContentWord) = wc)
    (hne : ¬ wc = [])
    (n1 n2 : ℕ)
    (hn1 : (wc.filter (fun w => decide (w ∈ sf))).length = n1)
    (hn2 : (sc.filter (fun w => decide (w ∈ ww))).length = n2)
    (score : ℚ)
    (hscore : ((n1 : ℕ) : ℚ) / ((wc.length : ℕ) : ℚ) * (6/10) +
      (if 0 < sc.length then ((n2 : ℕ) : ℚ) / ((sc.length : ℕ) : ℚ) else 0) * (4/10)
        = score)
    (pk : ℚ) (ni : ℕ)
    (hpk : (if st.peak < score then (score, (0 : ℕ)) else (st.peak, st.noImp + 1))
        = (pk, ni))
    (bst : ℚ × Option (ℕ × ℕ))
    (hbst : (if st.best.1 < score then (score, some (start, endIdx)) else st.best)
        = bst)
    (hni : ¬ 10 < ni) :
    expandLoop sf sc start endIdx (cueWs :: rest) st =
      expandLoop sf sc start (endIdx + 1) rest ⟨ww, wc, pk, ni, bst⟩ := by
  rw [expandLoop, if_neg hcap]
  simp only [hww, hwc]
  rw [if_neg hne]
  simp only [hn1, hn2, hscore, hpk, hbst]
  rw [if_neg hni]

lemma pass1BestVal_seg0 : pass1Best [[wA], [wB]] [wA] [wA] = (1, some (0, 0)) := by
  have e1a : expandLoop [wA] [wA] 0 0 [[wA], [wB]] ⟨[], [], 0, 0, (0, none)⟩
      = expandLoop [wA] [wA] 0 1 [[wB]] ⟨[wA], [wA], 1, 0, (1, some (0, 0))⟩ :=
    expandLoop_step [wA] [wA] 0 0 [wA] [[wB]] ⟨[], [], 0, 0, (0, none)⟩ (by omega)
      [wA] [wA] (by decide) (by decide) (by decide) 1 1 (by decide) (by decide)
      1 (by norm_num) 1 0 (by norm_num) (1, some (0, 0)) (by norm_num) (by omega)
  have e1b : expandLoop [wA] [wA] 0 1 [[wB]] ⟨[wA], [wA], 1, 0, (1, some (0, 0))⟩
      = expandLoop [wA] [wA] 0 2 [] ⟨[wA, wB], [wA, wB], 1, 1, (1, some (0, 0))⟩ :=
    expandLoop_step [wA] [wA] 0 1 [wB] [] ⟨[wA], [wA], 1, 0, (1, some (0, 0))⟩
      (by omega) [wA, wB] [wA, wB] (by decide) (by decide) (by decide) 1 1
      (by decide) (by decide) (7/10) (by norm_num) 1 1 (by norm_num)
      (1, some (0, 0)) (by norm_num) (by omega)
  have e2a : expandLoop [wA] [wA] 1 1 [[wB]] ⟨[], [], 0, 0, (1, some (0, 0))⟩
      = expandLoop [wA] [wA] 1 2 [] ⟨[wB], [wB], 0, 1, (1, some (0, 0))⟩ :=
    expandLoop_step [wA] [wA] 1 1 [wB] [] ⟨[], [], 0, 0, (1, some (0, 0))⟩
      (by omega) [wB] [wB] (by decide) (by decide) (by decide) 0 0
      (by decide) (by decide) 0 (by norm_num) 0 1 (by norm_num)
      (1, some (0, 0)) (by norm_num) (by omega)
  have hr : List.range ([[wA], [wB]] : List (List (List Char))).length = [0, 1] := by
    decide
  rw [pass1Best, hr, List.foldl_cons, List.foldl_cons, List.foldl_nil]
  show expandLoop [wA] [wA] 1 1 (([[wA], [wB]] : List (List (List Char))).drop 1)
      ⟨[], [], 0, 0,
        expandLoop [wA] [wA] 0 0 (([[wA], [wB]] : List (List (List Char))).drop 0)
          ⟨[], [], 0, 0, (0, none)⟩⟩ = (1, some (0, 0))
  rw [show ([[wA], [wB]] : List (List (List Char))).drop 1 = [[wB]] from rfl,
    show ([[wA], [wB]] : List (List (List Char))).drop 0 = [[wA], [wB]] from rfl,
    e1a, e1b,
    show expandLoop [wA] [wA] 0 2 []
      ⟨[wA, wB], [wA, wB], 1, 1, (1, some (0, 0))⟩ = (1, some (0, 0)) from rfl,
    e2a]
  rfl

lemma pass1BestVal_seg1 : pass1Best [[wA], [wB]] [wB] [wB] = (1, some (1, 1)) := by
  have e1a : expandLoop [wB] [wB] 0 0 [[wA], [wB]] ⟨[], [], 0, 0, (0, none)⟩
      = expandLoop [wB] [wB] 0 1 [[wB]] ⟨[wA], [wA], 0, 1, (0, none)⟩ :=
    expandLoop_step [wB] [wB] 0 0 [wA] [[wB]] ⟨[], [], 0, 0, (0, none)⟩ (by omega)
      [wA] [wA] (by decide) (by decide) (by decide) 0 0 (by decide) (by decide)
      0 (by norm_num) 0 1 (by norm_num) (0, none) (by norm_num) (by omega)
  have e1b : expandLoop [wB] [wB] 0 1 [[wB]] ⟨[wA], [wA], 0, 1, (0, none)⟩
      = expandLoop [wB] [wB] 0 2 []
          ⟨[wA, wB], [wA, wB], 7/10, 0, (7/10, some (0, 1))⟩ :=
    expandLoop_step [wB] [wB] 0 1 [wB] [] ⟨[wA], [wA], 0, 1, (0, none)⟩
      (by omega) [wA, wB] [wA, wB] (by decide) (by decide) (by decide) 1 1
      (by decide) (by decide) (7/10) (by norm_num) (7/10) 0 (by norm_num)
      (7/10, some (0, 1)) (by norm_num) (by omega)
  have e2a : expandLoop [wB] [wB] 1 1 [[wB]] ⟨[], [], 0, 0, (7/10, some (0, 1))⟩
      = expandLoop [wB] [wB] 1 2 [] ⟨[wB], [wB], 1, 0, (1, some (1, 1))⟩ :=
    expandLoop_step [wB] [wB] 1 1 [wB] [] ⟨[], [], 0, 0, (7/10, some (0, 1))⟩
      (by omega) [wB] [wB] (by decide) (by decide) (by decide) 1 1
      (by decide) (by decide) 1 (by norm_num) 1 0 (by norm_num)
      (1, some (1, 1)) (by norm_num) (by omega)
  have hr : List.range ([[wA], [wB]] : List (List (List Char))).length = [0, 1] := by
    decide
  rw [pass1Best, hr, List.foldl_cons, List.foldl_cons, List.foldl_nil]
  show expandLoop [wB] [wB] 1 1 (([[wA], [wB]] : List (List (List Char))).drop 1)
      ⟨[], [], 0, 0,
        expandLoop [wB] [wB] 0 0 (([[wA], [wB]] : List (List (List Char))).drop 0)
          ⟨[], [], 0, 0, (0, none)⟩⟩ = (1, some (1, 1))
  rw [show ([[wA], [wB]] : List (List (List Char))).drop 1 = [[wB]] from rfl,
    show ([[wA], [wB]] : List (List (List Char))).drop 0 = [[wA], [wB]] from rfl,
    e1a, e1b,
    show expandLoop [wB] [wB] 0 2 []
      ⟨[wA, wB], [wA, wB], 7/10, 0, (7/10, some (0, 1))⟩ = (7/10, some (0, 1)) from rfl,
    e2a]
  rfl

lemma pass1SegmentVal_seg0 :
    pass1Segment [[wA], [wB]] ⟨1, "alphaalpha", []⟩
      = ⟨1, true, 100, some 0, some 0, []⟩ := by
  rw [pass1Segment, if_neg (by decide)]
  have hsf : (jsWords (normalizeL ("alphaalpha".data))).dedup = [wA] := by decide
  have hsc : ([wA].filter isContentWord) = [wA] := by decide
  simp only [hsf, hsc, pass1BestVal_seg0]
  have hdec : (decide ((1 : ℚ)/4 ≤ (((1 : ℚ), some ((0 : ℕ), (0 : ℕ)))).1)) = true :=
    decide_eq_true (by norm_num)
  simp only [hdec, Option.isSome_some, Bool.and_self, if_pos]
  norm_num [jsRound]

lemma pass1SegmentVal_seg1 :
    pass1Segment [[wA], [wB]] ⟨2, "betabetabeta", []⟩
      = ⟨2, true, 100, some 1, some 1, []⟩ := by
  rw [pass1Segment, if_neg (by decide)]
  have hsf : (jsWords (normalizeL ("betabetabeta".data))).dedup = [wB] := by decide
  have hsc : ([wB].filter isContentWord) = [wB] := by decide
  simp only [hsf, hsc, pass1BestVal_seg1]
  have hdec : (decide ((1 : ℚ)/4 ≤ (((1 : ℚ), some ((1 : ℕ), (1 : ℕ)))).1)) = true :=
    decide_eq_true (by norm_num)
  simp only [hdec, Option.isSome_some, Bool.and_self, if_pos]
  norm_num [jsRound]

theorem mapSrtToSegments_nonoverlap_witness :
    ∃ si ei sj ej,
      (((mapSrtToSegmentsCues cues2w segs2w).segmentMatches).getD 0
        default).startCueIdx = some si ∧
      (((mapSrtToSegmentsCues cues2w segs2w).segmentMatches).getD 0
        default).endCueIdx = some ei ∧
      (((mapSrtToSegmentsCues cues2w segs2w).segmentMatches).getD 1
        default).startCueIdx = some sj ∧
      (((mapSrtToSegmentsCues cues2w segs2w).segmentMatches).getD 1
        default).endCueIdx = some ej ∧
      ei < sj := by
  have hcws : ((cues2w.map (fun cu => normalizeL cu.text.data)).map
      (fun t => (jsWords t).dedup)) = [[wA], [wB]] := by decide
  have hraw : segs2w.map (pass1Segment [[wA], [wB]]) =
      [(⟨1, true, 100, some 0, some 0, []⟩ : RawMatch),
       (⟨2, true, 100, some 1, some 1, []⟩ : RawMatch)] := by
    rw [show segs2w = [⟨1, "alphaalpha", []⟩, ⟨2, "betabetabeta", []⟩] from rfl,
      List.map_cons, List.map_cons, List.map_nil,
      pass1SegmentVal_seg0, pass1SegmentVal_seg1]
  have hsorted : sortedMatchedIdxs
      [(⟨1, true, 100, some 0, some 0, []⟩ : RawMatch),
       (⟨2, true, 100, some 1, some 1, []⟩ : RawMatch)] =
      [(0, (⟨1, true, 100, some 0, some 0, []⟩ : RawMatch)),
       (1, (⟨2, true, 100, some 1, some 1, []⟩ : RawMatch))] := by
    rw [sortedMatchedIdxs,
      show (([(⟨1, true, 100, some 0, some 0, []⟩ : RawMatch),
          (⟨2, true, 100, some 1, some 1, []⟩ : RawMatch)].enum).filter
          (fun p => p.2.matched)) =
        [(0, (⟨1, true, 100, some 0, some 0, []⟩ : RawMatch)),
         (1, (⟨2, true, 100, some 1, some 1, []⟩ : RawMatch))] from by decide]
    exact List.mergeSort_of_sorted (by decide)
  have hp2 : (pass2Fold
      [(0, (⟨1, true, 100, some 0, some 0, []⟩ : RawMatch)),
       (1, (⟨2, true, 100, some 1, some 1, []⟩ : RawMatch))]
      (List.replicate segs2w.length none,
        [(⟨1, true, 100, some 0, some 0, []⟩ : RawMatch),
         (⟨2, true, 100, some 1, some 1, []⟩ : RawMatch)])).2 =
      [(⟨1, true, 100, some 0, some 0, []⟩ : RawMatch),
       (⟨2, true, 100, some 1, some 1, []⟩ : RawMatch)] := by decide
  have hm0 : (((mapSrtToSegmentsCues cues2w segs2w).segmentMatches).getD 0
      default).matched = true := by
    rw [mapSrtToSegmentsCues_segmentMatches,
      (interpolateSegmentTiming_fields _ 0).1,
      (buildSegMatches_fields cues2w _ 0).1,
      hcws, hraw, hsorted, hp2]
    decide
  have hm1 : (((mapSrtToSegmentsCues cues2w segs2w).segmentMatches).getD 1
      default).matched = true := by
    rw [mapSrtToSegmentsCues_segmentMatches,
      (interpolateSegmentTiming_fields _ 1).1,
      (buildSegMatches_fields cues2w _ 1).1,
      hcws, hraw, hsorted, hp2]
    decide
  exact mapSrtToSegments_nonoverlap cues2w segs2w 0 1 (by omega) hm0 hm1
